import Mathlib

/-!
Verification of the ReAct agent control loop implemented in
`src/lib/useAgent.ts`: the multi-strategy tool-call parser
(`parseToolCall`), the tool dispatcher (`executeTool`), the context
budgeter (`budgetContext`), the repeat detector (`detectLoop`), the
prompt builder (`buildAgentPrompt`) and the top-level loop controller
(`runLoop`).

The TypeScript is shallowly embedded: JavaScript strings are Lean
`String`s (character indexed; the source indexes UTF-16 code units, which
agrees on all characters below U+10000), `undefined` array slots are
`Option`, promises that settle are oracle-supplied outcomes, and the
cooperative `AbortSignal` is a boolean that may flip at `await`
boundaries (JavaScript is single threaded, so the flag cannot change
between two synchronous reads).
-/

namespace UA

/-! ### JavaScript string primitives -/

/-- The character class `\s` of JavaScript regular expressions, which is
also the set trimmed by `String.prototype.trim`. -/
def isJsSpace (c : Char) : Bool :=
  c = ' ' || c = '\t' || c = '\n' || c = '\x0b' || c = '\x0c' || c = '\r' ||
  c = '\u00a0' || c = '\u1680' || (0x2000 ≤ c.toNat && c.toNat ≤ 0x200a) ||
  c = '\u2028' || c = '\u2029' || c = '\u202f' || c = '\u205f' ||
  c = '\u3000' || c = '\ufeff'

/-- The character class `\w` of JavaScript regular expressions. -/
def isJsWord (c : Char) : Bool :=
  ('a' ≤ c && c ≤ 'z') || ('A' ≤ c && c ≤ 'Z') || ('0' ≤ c && c ≤ '9') || c = '_'

/-- Does `needle` occur at the head of `hay`? -/
def listStarts : List Char → List Char → Bool
  | [], _ => true
  | _ :: _, [] => false
  | a :: as, b :: bs => a = b && listStarts as bs

/-- Does `needle` occur anywhere in `hay`?  (`String.prototype.includes`.) -/
def containsList (needle : List Char) : List Char → Bool
  | [] => listStarts needle []
  | c :: t => listStarts needle (c :: t) || containsList needle t

/-- Index of the first occurrence of `needle` in `hay`
(`String.prototype.indexOf`; `none` for `-1`). -/
def indexOfList (needle : List Char) : List Char → Option Nat
  | [] => if listStarts needle [] then some 0 else none
  | c :: t =>
    if listStarts needle (c :: t) then some 0
    else (indexOfList needle t).map (· + 1)

/-- Splitting on a separator character (`String.prototype.split`). -/
def splitOnChar (sep : Char) : List Char → List String
  | [] => [""]
  | c :: t =>
    let r := splitOnChar sep t
    if c = sep then "" :: r
    else
      match r with
      | h :: t2 => (⟨c :: h.data⟩ : String) :: t2
      | [] => [⟨[c]⟩]

def jsStartsWith (s pre : String) : Bool := listStarts pre.data s.data

def jsIncludes (s sub : String) : Bool := containsList sub.data s.data

def jsIndexOf (s sub : String) : Option Nat := indexOfList sub.data s.data

/-- `String.prototype.trim`. -/
def jsTrim (s : String) : String :=
  ⟨((s.data.dropWhile isJsSpace).reverse.dropWhile isJsSpace).reverse⟩

/-- `String.prototype.slice(0, n)` (code-unit/character prefix). -/
def strTake (s : String) (n : Nat) : String := ⟨s.data.take n⟩

/-- `String.prototype.slice(n)`. -/
def strDrop (s : String) (n : Nat) : String := ⟨s.data.drop n⟩

/-- `Array.prototype.join(sep)`. -/
def joinSep (sep : String) : List String → String
  | [] => ""
  | [a] => a
  | a :: rest => a ++ sep ++ joinSep sep rest

/-- Substring containment as a proposition (used by the claims). -/
def strHas (hay needle : String) : Prop := containsList needle.data hay.data = true

instance (hay needle : String) : Decidable (strHas hay needle) := by
  unfold strHas; infer_instance

/-! ### The JSON value model

`JSON.parse` produces JavaScript values; numbers are kept as their
source lexeme (their numeric value never influences the agent code
except through truthiness, which is derived from the lexeme's mantissa;
double-precision underflow of extreme exponents is not modelled). -/

inductive Json where
  | null
  | bool (b : Bool)
  | num (lex : String)
  | str (s : String)
  | arr (items : List Json)
  | obj (members : List (String × Json))
deriving Repr

/-- Is the mantissa of a number lexeme all zeros?  (`0`, `-0.00e7`, ...). -/
def numIsZero (lex : String) : Bool :=
  (lex.data.takeWhile (fun c => c ≠ 'e' ∧ c ≠ 'E')).all
    (fun c => !('1' ≤ c && c ≤ '9'))

/-- JavaScript truthiness of a JSON value. -/
def jsTruthy : Json → Bool
  | .null => false
  | .bool b => b
  | .num lex => !numIsZero lex
  | .str s => s ≠ ""
  | .arr _ => true
  | .obj _ => true

/-- Property read `j.k`: defined members for objects, `undefined`
(`none`) for everything else.  (`null.k` throws a `TypeError` in
JavaScript; every property read performed by the agent code sits inside
a `try`/`catch` or is reached only with non-`null` receivers, and the
caller treats the throw exactly like an absent field.) -/
def jsGetField : Json → String → Option Json
  | .obj members, k => (members.find? (fun m => m.1 = k)).map (·.2)
  | _, _ => none

/-! ### `JSON.parse` -/

def isJsonWs (c : Char) : Bool := c = ' ' || c = '\t' || c = '\n' || c = '\r'

def skipJsonWs (cs : List Char) : List Char := cs.dropWhile isJsonWs

def isHexDig (c : Char) : Bool :=
  ('0' ≤ c && c ≤ '9') || ('a' ≤ c && c ≤ 'f') || ('A' ≤ c && c ≤ 'F')

def hexVal (c : Char) : Nat :=
  if '0' ≤ c && c ≤ '9' then c.toNat - '0'.toNat
  else if 'a' ≤ c && c ≤ 'f' then c.toNat - 'a'.toNat + 10
  else c.toNat - 'A'.toNat + 10

/-- Four hex digits of a `\uXXXX` escape. -/
def parseHex4 : List Char → Option (Nat × List Char)
  | a :: b :: c :: d :: rest =>
    if isHexDig a && isHexDig b && isHexDig c && isHexDig d then
      some (((hexVal a * 16 + hexVal b) * 16 + hexVal c) * 16 + hexVal d, rest)
    else none
  | _ => none

/-- Scalar for a code point; lone surrogates (legal in `JSON.parse`
output but not representable as a Lean `Char`) are mapped to U+FFFD. -/
def scalarOf (n : Nat) : Char :=
  if n < 0xd800 ∨ (0xdfff < n ∧ n < 0x110000) then Char.ofNat n else '\ufffd'

/-- Body of a JSON string literal, after the opening quote; returns the
decoded characters and the remainder after the closing quote. -/
def parseJsonStrBody (fuel : Nat) (cs : List Char) : Option (List Char × List Char) :=
  match fuel, cs with
  | 0, _ => none
  | _, [] => none
  | fuel + 1, c :: rest =>
    if c = '"' then some ([], rest)
    else if c = '\\' then
      match rest with
      | [] => none
      | e :: rest2 =>
        let push := fun (d : Char) (r : List Char) =>
          (parseJsonStrBody fuel r).map (fun p => (d :: p.1, p.2))
        if e = '"' then push '"' rest2
        else if e = '\\' then push '\\' rest2
        else if e = '/' then push '/' rest2
        else if e = 'b' then push '\x08' rest2
        else if e = 'f' then push '\x0c' rest2
        else if e = 'n' then push '\n' rest2
        else if e = 'r' then push '\r' rest2
        else if e = 't' then push '\t' rest2
        else if e = 'u' then
          match parseHex4 rest2 with
          | none => none
          | some (n, rest3) =>
            if 0xd800 ≤ n && n ≤ 0xdbff then
              -- a high surrogate pairs with an immediately following \uYYYY
              match rest3 with
              | '\\' :: 'u' :: rest4 =>
                match parseHex4 rest4 with
                | some (m, rest5) =>
                  if 0xdc00 ≤ m && m ≤ 0xdfff then
                    push (scalarOf (0x10000 + (n - 0xd800) * 0x400 + (m - 0xdc00))) rest5
                  else push (scalarOf n) rest3
                | none => push (scalarOf n) rest3
              | _ => push (scalarOf n) rest3
            else push (scalarOf n) rest3
        else none
    else if c.toNat < 0x20 then none
    else (parseJsonStrBody fuel rest).map (fun p => (c :: p.1, p.2))

/-- A JSON number literal `-?(0|[1-9][0-9]*)(\.[0-9]+)?([eE][+-]?[0-9]+)?`,
kept as its lexeme. -/
def parseJsonNum (cs : List Char) : Option (String × List Char) :=
  let isDig := fun (c : Char) => '0' ≤ c && c ≤ '9'
  let (sign, cs1) := match cs with
    | '-' :: t => (['-'], t)
    | _ => (([] : List Char), cs)
  match cs1 with
  | [] => none
  | c :: _ =>
    if !isDig c then none
    else
      let intPart := if c = '0' then ['0'] else cs1.takeWhile isDig
      let cs2 := cs1.drop intPart.length
      let (fracPart, cs3) : List Char × List Char :=
        match cs2 with
        | '.' :: t =>
          let ds := t.takeWhile isDig
          (if ds.isEmpty then [] else '.' :: ds, t.drop ds.length)
        | _ => ([], cs2)
      -- a dot not followed by a digit is a JSON syntax error
      if (match cs2 with | '.' :: _ => fracPart.isEmpty | _ => false) then none
      else
        match cs3 with
        | e :: t =>
          if e = 'e' ∨ e = 'E' then
            let (s2, t2) : List Char × List Char :=
              match t with
              | '+' :: u => (['+'], u)
              | '-' :: u => (['-'], u)
              | _ => ([], t)
            let ds := t2.takeWhile isDig
            -- an exponent marker without a digit is a JSON syntax error
            if ds.isEmpty then none
            else some (⟨sign ++ intPart ++ fracPart ++ (e :: (s2 ++ ds))⟩, t2.drop ds.length)
          else some (⟨sign ++ intPart ++ fracPart⟩, cs3)
        | [] => some (⟨sign ++ intPart ++ fracPart⟩, cs3)

/-- Assigning to an object property: the first assignment fixes the
position, the last fixes the value (duplicate keys in `JSON.parse`). -/
def insertProp (members : List (String × Json)) (k : String) (v : Json) :
    List (String × Json) :=
  if members.any (fun m => m.1 = k) then
    members.map (fun m => if m.1 = k then (k, v) else m)
  else members ++ [(k, v)]

mutual

/-- `JSON.parse` value parser; `cs` must start at the first character of
the value (no leading whitespace). -/
def parseJsonVal : Nat → List Char → Option (Json × List Char)
  | 0, _ => none
  | fuel + 1, cs =>
    match cs with
    | [] => none
    | c :: rest =>
      if c = '"' then
        (parseJsonStrBody (fuel + 1) rest).map (fun p => (.str ⟨p.1⟩, p.2))
      else if c = '\x7b' then
        match skipJsonWs rest with
        | '\x7d' :: r => some (.obj [], r)
        | r => (parseJsonObjMembers fuel r).map
            (fun p => (.obj (p.1.foldl (fun acc kv => insertProp acc kv.1 kv.2) []), p.2))
      else if c = '[' then
        match skipJsonWs rest with
        | ']' :: r => some (.arr [], r)
        | r => (parseJsonArrItems fuel r).map (fun p => (.arr p.1, p.2))
      else if c = 't' then
        if listStarts "rue".data rest then some (.bool true, rest.drop 3) else none
      else if c = 'f' then
        if listStarts "alse".data rest then some (.bool false, rest.drop 4) else none
      else if c = 'n' then
        if listStarts "ull".data rest then some (.null, rest.drop 3) else none
      else
        (parseJsonNum cs).map (fun p => (.num p.1, p.2))

/-- Comma-separated array items up to and including the closing bracket. -/
def parseJsonArrItems : Nat → List Char → Option (List Json × List Char)
  | 0, _ => none
  | fuel + 1, cs =>
    match parseJsonVal fuel cs with
    | none => none
    | some (v, r) =>
      match skipJsonWs r with
      | ',' :: r2 =>
        (parseJsonArrItems fuel (skipJsonWs r2)).map (fun p => (v :: p.1, p.2))
      | ']' :: r2 => some ([v], r2)
      | _ => none

/-- Comma-separated object members up to and including the closing brace. -/
def parseJsonObjMembers : Nat → List Char → Option (List (String × Json) × List Char)
  | 0, _ => none
  | fuel + 1, cs =>
    match cs with
    | '"' :: rest =>
      match parseJsonStrBody (fuel + 1) rest with
      | none => none
      | some (k, r) =>
        match skipJsonWs r with
        | ':' :: r2 =>
          match parseJsonVal fuel (skipJsonWs r2) with
          | none => none
          | some (v, r3) =>
            match skipJsonWs r3 with
            | ',' :: r4 =>
              (parseJsonObjMembers fuel (skipJsonWs r4)).map
                (fun p => ((⟨k⟩, v) :: p.1, p.2))
            | '\x7d' :: r4 => some ([(⟨k⟩, v)], r4)
            | _ => none
        | _ => none
    | _ => none

end

/-- `JSON.parse`: parse one value surrounded by optional whitespace;
anything else throws, modelled as `none`. -/
def parseJson (s : String) : Option Json :=
  match parseJsonVal (2 * s.data.length + 2) (skipJsonWs s.data) with
  | some (v, r) => if skipJsonWs r = [] then some v else none
  | none => none

/-! ### `JSON.stringify` -/

def hexDigitStr (n : Nat) : String := String.singleton (Nat.digitChar n)

def escapeJsonChar (c : Char) : String :=
  if c = '"' then "\\\""
  else if c = '\\' then "\\\\"
  else if c = '\n' then "\\n"
  else if c = '\r' then "\\r"
  else if c = '\t' then "\\t"
  else if c = '\x08' then "\\b"
  else if c = '\x0c' then "\\f"
  else if c.toNat < 0x20 then "\\u00" ++ hexDigitStr (c.toNat / 16) ++ hexDigitStr (c.toNat % 16)
  else String.singleton c

def quoteJson (s : String) : String :=
  "\"" ++ String.join (s.data.map escapeJsonChar) ++ "\""

mutual

/-- `JSON.stringify` (number lexemes are emitted as parsed rather than
re-rendered from their double value; the agent only ever compares these
strings for equality between identically produced values). -/
def jsonStringify : Json → String
  | .null => "null"
  | .bool true => "true"
  | .bool false => "false"
  | .num lex => lex
  | .str s => quoteJson s
  | .arr items => "[" ++ joinSep "," (stringifyItems items) ++ "]"
  | .obj members => "\x7b" ++ joinSep "," (stringifyMembers members) ++ "\x7d"

def stringifyItems : List Json → List String
  | [] => []
  | j :: t => jsonStringify j :: stringifyItems t

def stringifyMembers : List (String × Json) → List String
  | [] => []
  | (k, v) :: t => (quoteJson k ++ ":" ++ jsonStringify v) :: stringifyMembers t

end

/-! ### Regular-expression replacements used by the parser -/

/-- `replace(/'/g, '"')` and friends. -/
def replaceAllChar (a b : Char) (s : String) : String :=
  ⟨s.data.map (fun c => if c = a then b else c)⟩

/-- Global replacement `(\w)"(\w)` → `$1'$2`: each non-overlapping match
is rewritten and scanning resumes after it. -/
def replWordQuoteWord (fuel : Nat) : List Char → List Char
  | [] => []
  | c :: rest =>
    match fuel with
    | 0 => c :: rest
    | fuel + 1 =>
      match c, rest with
      | a, '"' :: b :: rest2 =>
        if isJsWord a && isJsWord b then a :: '\x27' :: b :: replWordQuoteWord fuel rest2
        else a :: replWordQuoteWord fuel ('"' :: b :: rest2)
      | _, _ => c :: replWordQuoteWord fuel rest

/-- Global replacement `,\s*}` → `}`. -/
def replCommaBrace (fuel : Nat) : List Char → List Char
  | [] => []
  | c :: rest =>
    match fuel with
    | 0 => c :: rest
    | fuel + 1 =>
      if c = ',' then
        let ws := rest.dropWhile isJsSpace
        match ws with
        | '\x7d' :: tail => '\x7d' :: replCommaBrace fuel tail
        | _ => c :: replCommaBrace fuel rest
      else c :: replCommaBrace fuel rest

/-- `replace(/<think>[\s\S]*?<\/think>/g, "")`: remove every reasoning
block; an opener without a closer is left in place. -/
def stripThinkGo (fuel : Nat) (cs : List Char) : List Char :=
  match fuel with
  | 0 => cs
  | fuel + 1 =>
    match indexOfList "<think>".data cs with
    | none => cs
    | some i =>
      let afterOpen := cs.drop (i + 7)
      match indexOfList "</think>".data afterOpen with
      | none => cs
      | some j => cs.take i ++ stripThinkGo fuel (afterOpen.drop (j + 8))

def stripThink (s : String) : String := ⟨stripThinkGo s.data.length s.data⟩

/-! ### Regex search strategies of `parseToolCall`

Each JavaScript regex of the source is compiled by hand into a
deterministic scanner.  Quantifier backtracking is only observable in
two places — the greedy `[^{}]*` before `"tool"` (tried longest first)
and the `(?:json)?` option (tried with `json` first) — and is
implemented explicitly there; every other quantifier in these patterns
is followed by a character its own class excludes, so its match length
is forced. -/

def eatChar (c : Char) : List Char → Option (List Char)
  | x :: rest => if x = c then some rest else none
  | [] => none

/-- First `f`-success over a list of candidates. -/
def pickFirst {α β : Type} (f : α → Option β) : List α → Option β
  | [] => none
  | x :: t => match f x with
    | some r => some r
    | none => pickFirst f t

/-- Ascending start indices of occurrences of `pat`. -/
def occList (pat : List Char) : List Char → List Nat
  | [] => if listStarts pat [] then [0] else []
  | c :: t =>
    (if listStarts pat (c :: t) then [0] else []) ++ (occList pat t).map (· + 1)

/-- Tail of the embedded-JSON regex after its `"tool"` literal:
`\s*:\s*"[^"]+"\s*,\s*"args"\s*:\s*\{[^}]*\}[^{}]*\}`.
Returns the remainder after the match. -/
def embTail (cs : List Char) : Option (List Char) := do
  let cs ← eatChar ':' (cs.dropWhile isJsSpace)
  let cs ← eatChar '"' (cs.dropWhile isJsSpace)
  let v := cs.takeWhile (fun c => c ≠ '"')
  if v.isEmpty then none else do
  let cs ← eatChar '"' (cs.drop v.length)
  let cs ← eatChar ',' (cs.dropWhile isJsSpace)
  let cs := cs.dropWhile isJsSpace
  if listStarts "\"args\"".data cs then do
    let cs := cs.drop 6
    let cs ← eatChar ':' (cs.dropWhile isJsSpace)
    let cs ← eatChar '\x7b' (cs.dropWhile isJsSpace)
    let inner := cs.takeWhile (fun c => c ≠ '\x7d')
    let cs ← eatChar '\x7d' (cs.drop inner.length)
    let tail := cs.takeWhile (fun c => c ≠ '\x7b' ∧ c ≠ '\x7d')
    eatChar '\x7d' (cs.drop tail.length)
  else none

/-- One anchored attempt of the embedded-JSON regex
`\{[^{}]*"tool"\s*:\s*"[^"]+"\s*,\s*"args"\s*:\s*\{[^}]*\}[^{}]*\}`;
returns the match length.  The greedy `[^{}]*` is resolved by trying the
latest `"tool"` occurrence inside the brace-free run first. -/
def tryEmbAt (cs : List Char) : Option Nat :=
  match cs with
  | '\x7b' :: rest =>
    let run := rest.takeWhile (fun c => c ≠ '\x7b' ∧ c ≠ '\x7d')
    let occs := occList "\"tool\"".data run
    pickFirst
      (fun j =>
        (embTail ((run.drop (j + 6)) ++ rest.drop run.length)).map
          (fun rem => cs.length - rem.length))
      occs.reverse
  | _ => none

/-- Leftmost match of the embedded-JSON regex: `(start, length)`. -/
def searchEmb : List Char → Option (Nat × Nat)
  | [] => none
  | c :: t =>
    match tryEmbAt (c :: t) with
    | some len => some (0, len)
    | none => (searchEmb t).map (fun p => (p.1 + 1, p.2))

/-- Lazy closing search of the fenced-block regex: the group grows
until the closing fence matches, so it ends at the first
triple-backtick, minus one directly preceding newline. -/
def findClose (b : List Char) : Option (List Char) :=
  match indexOfList "```".data b with
  | none => none
  | some q =>
    if 0 < q ∧ b.get? (q - 1) = some '\n' then some (b.take (q - 1))
    else some (b.take q)

/-- Body of the fenced-block regex after the opening fence (the
`(?:json)?` option is greedy, so it is tried with `json` first);
returns the raw captured group. -/
def fenceBody (after : List Char) : Option (List Char) :=
  if listStarts "json".data after then
    match findClose ((after.drop 4).dropWhile isJsSpace) with
    | some g => some g
    | none => findClose (after.dropWhile isJsSpace)
  else findClose (after.dropWhile isJsSpace)

/-- Leftmost successful fence match, scanning opener positions left to
right. -/
def searchFence : List Char → Option (List Char)
  | [] => none
  | c :: t =>
    if listStarts "```".data (c :: t) then
      match fenceBody ((c :: t).drop 3) with
      | some g => some g
      | none => searchFence t
    else searchFence t

/-- The closing part `([^"']+)["']` of the strategy-5 pattern: a
non-empty run of quote-free characters followed by a quote. -/
def kvCapture (cs4 : List Char) : Option (List Char) :=
  let cap := cs4.takeWhile (fun c => c ≠ '"' ∧ c ≠ '\x27')
  if cap.isEmpty then none
  else
    match cs4.drop cap.length with
    | q4 :: _ => if q4 = '"' ∨ q4 = '\x27' then some cap else none
    | [] => none

/-- Continuation of the strategy-5 pattern after the opening quote, for
one key alternative: the anchored rest of `["']K["']\s*:\s*["']([^"']+)["']`. -/
def kvAttempt (key : List Char) (rest : List Char) : Option (List Char) :=
  if listStarts key rest then
    match rest.drop key.length with
    | [] => none
    | q2 :: cs2 =>
      if q2 = '"' ∨ q2 = '\x27' then
        match eatChar ':' (cs2.dropWhile isJsSpace) with
        | none => none
        | some cs3 =>
          match cs3.dropWhile isJsSpace with
          | [] => none
          | q3 :: cs4 =>
            if q3 = '"' ∨ q3 = '\x27' then kvCapture cs4 else none
      else none
  else none

/-- One anchored attempt of `["']K["']\s*:\s*["']([^"']+)["']` for the
key alternatives `keys` (tried in alternation order). -/
def kvTailAt (keys : List (List Char)) (cs : List Char) : Option (List Char) :=
  match cs with
  | [] => none
  | q1 :: rest =>
    if q1 = '"' ∨ q1 = '\x27' then pickFirst (fun key => kvAttempt key rest) keys
    else none

/-- Leftmost match for the key/value extraction regexes of strategy 5. -/
def searchKV (keys : List (List Char)) : List Char → Option (List Char)
  | [] => none
  | c :: t =>
    match kvTailAt keys (c :: t) with
    | some cap => some cap
    | none => searchKV keys t

/-! ### `parseToolCall` -/

structure ParsedToolCall where
  thought : String
  tool : String
  args : Json
deriving Repr

/-- `parsed.args || {}`. -/
def argsOf (j : Json) : Json :=
  match jsGetField j "args" with
  | some v => if jsTruthy v then v else Json.obj []
  | none => Json.obj []

/-- Strategy 1: scan the lines for the first fence-free trimmed line
that starts with a brace and mentions `tool`, accumulating the earlier
lines (with their newlines) as the thought. -/
def scan1 (acc : String) : List String → String × String
  | [] => (acc, "")
  | line :: rest =>
    let trimmed := jsTrim line
    if trimmed = "```json" ∨ trimmed = "```" then scan1 acc rest
    else if (jsStartsWith trimmed "\x7b" && jsIncludes trimmed "tool") ||
        (jsStartsWith trimmed "\x7b\x27" && jsIncludes trimmed "tool") then
      (acc, trimmed)
    else scan1 (acc ++ line ++ "\n") rest

/-- Strategy 4: the four progressively normalized parse attempts; an
attempt succeeds when it parses and `parsed.tool` is a truthy string
(reading `.tool` off a parsed `null` throws and is caught, which is the
same as moving on). -/
def tryAttempts (thought : String) : List String → Option ParsedToolCall
  | [] => none
  | a :: rest =>
    match parseJson a with
    | some j =>
      match jsGetField j "tool" with
      | some (Json.str t) =>
        if t ≠ "" then some ⟨jsTrim thought, t, argsOf j⟩
        else tryAttempts thought rest
      | _ => tryAttempts thought rest
    | none => tryAttempts thought rest

/-- Strategies 4 and 5 on the selected JSON candidate: the four
progressively normalized parse attempts, then regex extraction as the
last resort (with the `query`/`code`/`content` argument aliases); an
empty candidate means no strategy matched, which is `null`. -/
def parseCandidate (thought cand : String) : Option ParsedToolCall :=
  if cand = "" then none
  else
    let attempts := [cand,
      replaceAllChar '\x27' '"' cand,
      ⟨replWordQuoteWord cand.data.length (replaceAllChar '\x27' '"' cand).data⟩,
      ⟨replCommaBrace cand.data.length cand.data⟩]
    match tryAttempts thought attempts with
    | some r => some r
    | none =>
      match searchKV ["tool".data] cand.data with
      | some t =>
        let qm := searchKV ["query".data, "q".data] cand.data
        let cm := searchKV ["code".data] cand.data
        let com := searchKV ["content".data] cand.data
        let args := Json.obj (
          (match qm with | some v => [("query", Json.str ⟨v⟩)] | none => []) ++
          (match cm with | some v => [("code", Json.str ⟨v⟩)] | none => []) ++
          (match com with | some v => [("content", Json.str ⟨v⟩)] | none => []))
        some ⟨jsTrim thought, ⟨t⟩, args⟩
      | none => none

/-- `parseToolCall` of `src/lib/useAgent.ts`: strategies 1-3 pick a JSON
candidate and a thought, strategy 4 parses it leniently, strategy 5
falls back to regex extraction; `none` is "no tool call" (the caller's
final answer). -/
def parseToolCall (text : String) : Option ParsedToolCall :=
  let lines := splitOnChar '\n' text.data
  let (thought1, cand1) := scan1 "" lines
  -- Strategy 2: embedded-JSON regex sweep
  let (thought2, cand2) :=
    if cand1 = "" then
      match searchEmb text.data with
      | some (start, len) =>
        let cand : String := ⟨(text.data.drop start).take len⟩
        (jsTrim (strTake text ((jsIndexOf text cand).getD 0)), cand)
      | none => (thought1, "")
    else (thought1, cand1)
  -- Strategy 3: fenced code block mentioning a tool key
  let (thought, cand) :=
    if cand2 = "" then
      match searchFence text.data with
      | some g =>
        let inner := jsTrim ⟨g⟩
        if jsIncludes inner "\"tool\"" || jsIncludes inner "\x27tool\x27" then
          (jsTrim (strTake text ((jsIndexOf text "```").getD 0)), inner)
        else (thought2, "")
      | none => (thought2, "")
    else (thought2, cand2)
  parseCandidate thought cand

/-! ### Configuration constants -/

def MAX_ITERATIONS : Nat := 8

def TOOL_TIMEOUT_MS : Nat := 30000

def MAX_CONTEXT_CHARS : Nat := 12000

def MAX_LOOP_REPEATS : Nat := 3

/-! ### Data model -/

inductive StepType where
  | thought | action | observation | final | error
deriving BEq, DecidableEq, Repr

inductive AgentStatus where
  | idle | thinking | acting | done | error
deriving BEq, DecidableEq, Repr

/-- One ledger entry (`AgentStep`); wall-clock fields (`timestamp`,
`durationMs`) are modelled as constants since no agent logic reads
them. -/
structure AgentStep where
  id : Int
  type : StepType
  content : String
  tool : Option String := none
  args : Option Json := none
  timestamp : Nat := 0
  durationMs : Option Nat := none
deriving Repr

structure Message where
  role : String
  content : String
deriving Repr

/-- The capability set; each member of the source interface is an
optional externally injected function, modelled by its presence flag —
the raced settlement of an invocation is supplied by the behaviour
oracle of `runLoop`, since the implementations are external
collaborators. -/
structure AgentToolkit where
  webSearch : Bool := false
  ragSearch : Bool := false
  python : Bool := false
  memorySave : Bool := false
  memoryRecall : Bool := false

/-! ### System prompt for agent mode -/

def agentPromptPart1 : String := "\n\nYou are an autonomous AI agent. You MUST solve problems step-by-step by using tools.\n\nAVAILABLE TOOLS: "

def agentPromptPart2 : String := "\n\nTO USE A TOOL, you must output EXACTLY this JSON format on its own line:\n\x7b\"tool\": \"TOOL_NAME\", \"args\": \x7b\"key\": \"value\"\x7d\x7d\n\nTool reference:\n• webSearch — search the live web. Args: \x7b\"query\": \"search terms\"\x7d\n• ragSearch — search user\x27s uploaded documents. Args: \x7b\"query\": \"search terms\"\x7d\n• python — execute Python code. Args: \x7b\"code\": \"python code here\"\x7d\n• memorySave — persist information. Args: \x7b\"content\": \"text to save\"\x7d\n• memoryRecall — recall saved info. Args: \x7b\"query\": \"search terms\"\x7d\n\nEXAMPLE 1 — User asks \"what is the population of France?\"\nI need to search for the current population of France.\n\x7b\"tool\": \"webSearch\", \"args\": \x7b\"query\": \"population of France 2025\"\x7d\x7d\n\nEXAMPLE 2 — User asks \"calculate 17 * 23 + 5\"\nLet me use Python to compute this accurately.\n\x7b\"tool\": \"python\", \"args\": \x7b\"code\": \"result = 17 * 23 + 5\\nprint(result)\"\x7d\x7d\n\nCRITICAL RULES:\n1. You MUST think first, then call exactly ONE tool per turn\n2. After receiving a tool result, either call another tool OR give your FINAL answer\n3. Your FINAL answer must contain NO JSON tool calls — just plain text\n4. Do NOT skip tools — if a tool is available and relevant, USE IT\n5. If a tool errors, try a different approach — do NOT retry the same call\n6. For math or calculations, ALWAYS use the python tool\n7. NEVER give a final answer on your first turn if tools are available — use at least one tool first"

/-- The `toolList` interpolated into the prompt's AVAILABLE TOOLS line. -/
def toolListString (availTools : List String) : String :=
  if availTools.length > 0 then joinSep ", " availTools
  else "none (answer from your own knowledge)"

/-- `buildAgentPrompt` of the source: the base system prompt, the
interpolated list of available tools, and the fixed instruction text
(which includes the static five-tool reference section). -/
def buildAgentPrompt (base : String) (availTools : List String) : String :=
  base ++ agentPromptPart1 ++ toolListString availTools ++ agentPromptPart2

/-- The `availableTools` array built at the top of `runLoop` (only the
tools that actually exist in the toolkit, in push order). -/
def availableTools (tools : AgentToolkit) : List String :=
  (if tools.webSearch then ["webSearch"] else []) ++
  (if tools.ragSearch then ["ragSearch"] else []) ++
  (if tools.python then ["python"] else []) ++
  (if tools.memorySave then ["memorySave"] else []) ++
  (if tools.memoryRecall then ["memoryRecall"] else [])

/-! ### Tool executor with timeout -/

/-- How the raced capability invocation would settle, supplied as an
oracle: it resolves with a string, rejects with an error message, the
30-second timeout fires first, or the abort event fires first. -/
inductive ToolBeh where
  | settles (s : String)
  | rejects (msg : String)
  | timesOut
  | abortFires
deriving Repr

/-- Outcome of one `executeTool` call, together with the fate of the
timeout timer created for the race: `setTimeout` runs exactly when a
race is entered, `clearTimeout` is reached only inside the abort
listener, and a timer that has fired is no longer pending. -/
structure ExecOutcome where
  result : String
  raced : Bool := false
  timerStarted : Bool := false
  timerFired : Bool := false
  timerCleared : Bool := false
  abortedDuring : Bool := false
deriving Repr

/-- After `executeTool` resolves, is its timeout timer still pending? -/
def timerPendingAfter (o : ExecOutcome) : Bool :=
  o.timerStarted && !o.timerFired && !o.timerCleared

def validToolNames : List String :=
  ["webSearch", "ragSearch", "python", "memorySave", "memoryRecall"]

/-- Presence of the capability `toolFn` resolves to (the `switch`). -/
def toolPresent (tk : AgentToolkit) : String → Bool
  | "webSearch" => tk.webSearch
  | "ragSearch" => tk.ragSearch
  | "python" => tk.python
  | "memorySave" => tk.memorySave
  | "memoryRecall" => tk.memoryRecall
  | _ => false

/-- `executeTool` of the source.  The bound argument alias
(`args.query || args.q || ""` etc.) is passed to the external
capability, whose settlement the oracle `beh` supplies, so the binding
does not influence the modelled outcome; the function itself never
rejects — every branch resolves to a string. -/
def executeToolModel (toolName : String) (_args : Json) (tk : AgentToolkit)
    (abortedAtEntry : Bool) (beh : ToolBeh) : ExecOutcome :=
  if abortedAtEntry then { result := "[Cancelled]" }
  else if !toolPresent tk toolName then
    if !(validToolNames.contains toolName) then
      { result := "[Error] Unknown tool \"" ++ toolName ++ "\". Available: " ++
          joinSep ", " validToolNames }
    else
      { result := "[Error] " ++ toolName ++ " is not currently available. Try a different approach." }
  else
    match beh with
    | .settles s =>
      { result := if s = "" then "Tool returned empty result." else s
        raced := true
        timerStarted := true }
    | .rejects m =>
      { result := if m = "Cancelled" then "[Cancelled]"
          else "[Error] " ++ toolName ++ " failed: " ++ (if m = "" then "Error" else m)
        raced := true
        timerStarted := true }
    | .timesOut =>
      { result := "[Error] " ++ toolName ++ " failed: Tool \"" ++ toolName ++
          "\" timed out after " ++ toString (TOOL_TIMEOUT_MS / 1000) ++ "s"
        raced := true
        timerStarted := true
        timerFired := true }
    | .abortFires =>
      { result := "[Cancelled]"
        raced := true
        timerStarted := true
        timerCleared := true
        abortedDuring := true }

/-! ### Context window budget management -/

def totalChars (msgs : List Message) : Nat :=
  (msgs.map (fun m => m.content.length)).sum

def totalCharsOpt (msgs : List (Option Message)) : Nat :=
  (msgs.map (fun m => match m with | some m => m.content.length | none => 0)).sum

/-- One compressed line of the budget summary: a coarse role tag and
the content aggressively truncated to 200 characters. -/
def summaryEntry (m : Message) : String :=
  let role := if m.role = "assistant" then "Agent" else "Tool"
  let content :=
    if m.content.length > 200 then strTake m.content 200 ++ "..."
    else m.content
  "[" ++ role ++ "] " ++ content

/-- `budgetContext` of the source.  The result element type is
`Option Message` because `[msgs[0], msgs[1]]` reads the array raw:
on a list with fewer than two entries the slot holds `undefined`
(`none`); every other element is a present message. -/
def budgetContext (msgs : List Message) : List (Option Message) :=
  if totalChars msgs ≤ MAX_CONTEXT_CHARS then msgs.map some
  else
    -- keep system prompt and original user query intact
    let result := [msgs.get? 0, msgs.get? 1]
    let rest := msgs.drop 2
    -- keep the most recent 4 messages in full
    let recentCount := min 4 rest.length
    let old := rest.take (rest.length - recentCount)
    let recent := rest.drop (rest.length - recentCount)
    let result :=
      if old.length > 0 then
        let summary := joinSep "\n" (old.map summaryEntry)
        let summaryMsg : Message :=
          { role := "user"
            content := "[Previous context summary]\n" ++ summary ++
              "\n[End summary — focus on the most recent information below]" }
        result ++ [some summaryMsg]
      else result
    result ++ recent.map some

/-! ### Loop detection -/

/-- The signature `` `${a.tool}:${JSON.stringify(a.args)}` `` (an absent
field prints as `undefined`). -/
def stepSignature (a : AgentStep) : String :=
  (match a.tool with | some t => t | none => "undefined") ++ ":" ++
  (match a.args with | some j => jsonStringify j | none => "undefined")

/-- `detectLoop` of the source. -/
def detectLoop (steps : List AgentStep) : Bool :=
  let actions := steps.filter (fun s => s.type == StepType.action)
  if actions.length < MAX_LOOP_REPEATS then false
  else
    let recent := actions.drop (actions.length - MAX_LOOP_REPEATS)
    let signatures := recent.map stepSignature
    signatures.all (fun s => s == signatures.getD 0 "")

/-! ### The loop controller (`runLoop`)

External interactions are supplied by three oracles: `gen n` is the
settlement of the n-th `generate` call, `toolBeh n` the settlement of
the n-th raced capability invocation, and `abortAt n` says whether the
abort signal fires while the n-th `await` that crosses a macrotask
boundary is suspended.  JavaScript runs the function body synchronously
between awaits, so the `signal.aborted` reads in between all see the
same value, and an `AbortSignal` is sticky once fired. -/

inductive GenOut where
  | ok (s : String)
  | err (msg : String)
deriving Repr

structure LoopSt where
  steps : List AgentStep := []
  status : AgentStatus := .idle
  currentIteration : Nat := 0
  msgs : List Message := []
  stepId : Nat := 0
  finalAnswer : String := ""
  aborted : Bool := false
  nAwait : Nat := 0
  nGen : Nat := 0
  nTool : Nat := 0
deriving Repr

/-- The argument of `addStep` (`Omit<AgentStep, "id" | "timestamp">`). -/
structure StepInit where
  type : StepType
  content : String
  tool : Option String := none
  args : Option Json := none
  durationMs : Option Nat := none

/-- `addStep` of the source: silently drops the step once the signal has
aborted, otherwise appends it with the next monotonic id. -/
def addStep (st : LoopSt) (s : StepInit) : LoopSt :=
  if st.aborted then st
  else
    let full : AgentStep :=
      { id := (st.stepId : Int)
        type := s.type
        content := s.content
        tool := s.tool
        args := s.args
        timestamp := 0
        durationMs := s.durationMs }
    { st with steps := st.steps ++ [full], stepId := st.stepId + 1 }

/-- The candidate step appended for loop detection (`id: -1`). -/
def probeStep (tc : ParsedToolCall) : AgentStep :=
  { id := -1
    type := .action
    content := ""
    timestamp := 0
    tool := some tc.tool
    args := some tc.args }

/-- `Object.entries` as used by the action-step display. -/
def jsEntries : Json → List (String × Json)
  | .obj members => members
  | .arr items => items.enum.map (fun p => (toString p.1, p.2))
  | .str s => s.data.enum.map (fun p => (toString p.1, Json.str (String.singleton p.2)))
  | _ => []

def argsDisplay (args : Json) : String :=
  joinSep ", " ((jsEntries args).map (fun kv =>
    let s := match kv.2 with
      | .str s => s
      | v => jsonStringify v
    kv.1 ++ ": " ++ (if s.length > 80 then strTake s 80 ++ "…" else s)))

inductive IterRes where
  | ret (s : String)
  | brk
  | next

/-- One iteration of the `for` loop of `runLoop`. -/
def runIteration (gen : Nat → GenOut) (toolBeh : Nat → ToolBeh) (abortAt : Nat → Bool)
    (tools : AgentToolkit) (st : LoopSt) (i : Nat) : LoopSt × IterRes :=
  if st.aborted then (st, .brk)
  else
    let st := { st with currentIteration := i + 1, status := .thinking }
    let _budgeted := budgetContext st.msgs
    -- await generate(budgeted): the oracle answers; the abort flag may flip
    -- while the call is suspended
    let genOut := gen st.nGen
    let st :=
      { st with
        nGen := st.nGen + 1
        aborted := st.aborted || abortAt st.nAwait
        nAwait := st.nAwait + 1 }
    match genOut with
    | .err m =>
      if st.aborted then (st, .brk)
      else
        let st := addStep st { type := .error, content := "LLM generation failed: " ++ m }
        let st := { st with status := .error }
        (st, .ret ("Agent error: " ++ m))
    | .ok raw =>
      if st.aborted then (st, .brk)
      else
        -- strip thinking tags some models emit
        let llmOutput := jsTrim (stripThink raw)
        match parseToolCall llmOutput with
        | none =>
          -- no tool call → final answer
          let st := addStep st { type := .final, content := llmOutput }
          let st := { st with finalAnswer := llmOutput, status := .done }
          (st, .brk)
        | some toolCall =>
          -- check for loop detection BEFORE executing
          let testSteps := st.steps ++ [probeStep toolCall]
          if detectLoop testSteps then
            let loopMsg := "Loop detected: calling " ++ toolCall.tool ++ " with same args " ++
              toString MAX_LOOP_REPEATS ++ "x. Breaking to give answer."
            let st := addStep st { type := .error, content := loopMsg }
            -- force the LLM to answer
            let st :=
              { st with
                msgs := st.msgs ++
                  [{ role := "assistant", content := llmOutput },
                   { role := "user", content := "You\x27re repeating the same tool call. Please give your FINAL ANSWER now based on what you already know." }] }
            (st, .next)
          else
            let st :=
              if toolCall.thought ≠ "" then
                addStep st { type := .thought, content := toolCall.thought }
              else st
            let actionInit : StepInit :=
              { type := .action
                content := toolCall.tool ++ "(" ++ argsDisplay toolCall.args ++ ")"
                tool := some toolCall.tool
                args := some toolCall.args }
            let st := addStep st actionInit
            let st := { st with status := .acting }
            -- await executeTool(...): suspends across a macrotask boundary
            -- (letting the abort flag flip) only when a capability is raced
            let o := executeToolModel toolCall.tool toolCall.args tools st.aborted (toolBeh st.nTool)
            let st :=
              { st with
                aborted := st.aborted || (o.raced && abortAt st.nAwait) || o.abortedDuring
                nAwait := st.nAwait + (if o.raced then 1 else 0)
                nTool := st.nTool + (if o.raced then 1 else 0) }
            if st.aborted then (st, .brk)
            else
              let obsContent :=
                if o.result.length > 2000 then strTake o.result 2000 ++ "\n··· [truncated]"
                else o.result
              let st := addStep st { type := .observation, content := obsContent, durationMs := some 0 }
              -- append to LLM context for the next iteration
              let st :=
                { st with
                  msgs := st.msgs ++
                    [{ role := "assistant", content := llmOutput },
                     { role := "user", content := "Tool result (" ++ toolCall.tool ++ ", 0ms):\n" ++
                        obsContent ++ "\n\nUse this information to either call another tool or provide your final answer." }] }
              (st, .next)

/-- The `for` loop from index `i` with `fuel` remaining iterations. -/
def runFrom (gen : Nat → GenOut) (toolBeh : Nat → ToolBeh) (abortAt : Nat → Bool)
    (tools : AgentToolkit) : Nat → Nat → LoopSt → LoopSt × Option String
  | _, 0, st => (st, none)
  | i, fuel + 1, st =>
    match runIteration gen toolBeh abortAt tools st i with
    | (st2, .ret s) => (st2, some s)
    | (st2, .brk) => (st2, none)
    | (st2, .next) => runFrom gen toolBeh abortAt tools (i + 1) fuel st2

/-- The answer synthesized on abort: the last `observation` step's
content prefixed as a partial result, else a generic stopped message. -/
def abortAnswer (st : LoopSt) : String :=
  match (st.steps.filter (fun s => s.type == StepType.observation)).getLast? with
  | some o => "Stopped by user. Partial result:\n\n" ++ o.content
  | none => "Agent was stopped."

/-- The fallback answer when `MAX_ITERATIONS` is exhausted. -/
def fallbackAnswer (st : LoopSt) : String :=
  match (st.steps.filter (fun s => s.type == StepType.observation)).getLast? with
  | some o => "Reached step limit (" ++ toString MAX_ITERATIONS ++
      "). Here\x27s what I found:\n\n" ++ o.content
  | none => "Reached the step limit without finding an answer. Try rephrasing or breaking into smaller questions."

/-- The first block after the `for` loop: on abort, synthesize the
final answer from the last observation, attempt to record it (a dead
call — `addStep` refuses once aborted), and set status `done`. -/
def finishAbort (st : LoopSt) : LoopSt :=
  if st.aborted then
    let fa := abortAnswer st
    let st := { st with finalAnswer := fa }
    let st := addStep st { type := .final, content := fa }
    { st with status := .done }
  else st

/-- The second block after the `for` loop: the max-iterations fallback
when no final answer was produced and the run was not aborted. -/
def finishFallback (st : LoopSt) : LoopSt :=
  if st.finalAnswer = "" ∧ st.aborted = false then
    let fa := fallbackAnswer st
    let st := { st with finalAnswer := fa }
    let st := addStep st { type := .final, content := fa }
    { st with status := .done }
  else st

/-- The code after the `for` loop: abort handling, the max-iterations
fallback, and the return of `finalAnswer`. -/
def finishLoop (st : LoopSt) : LoopSt × String :=
  let st := finishAbort st
  let st := finishFallback st
  (st, st.finalAnswer)

/-- `runLoop` of the source: a fresh session (the new
`AbortController`'s signal starts unaborted), the augmented prompt, up
to `MAX_ITERATIONS` iterations, then the terminal handling.  Returns
the final store state and the returned string. -/
def runLoop (query : String) (tools : AgentToolkit) (gen : Nat → GenOut)
    (toolBeh : Nat → ToolBeh) (abortAt : Nat → Bool) (systemPrompt : String) :
    LoopSt × String :=
  let agentPrompt := buildAgentPrompt systemPrompt (availableTools tools)
  let st0 : LoopSt :=
    { steps := []
      status := .thinking
      currentIteration := 0
      msgs := [{ role := "system", content := agentPrompt },
               { role := "user", content := query }]
      stepId := 0
      finalAnswer := ""
      aborted := false
      nAwait := 0
      nGen := 0
      nTool := 0 }
  match runFrom gen toolBeh abortAt tools 0 MAX_ITERATIONS st0 with
  | (st, some s) => (st, s)
  | (st, none) => finishLoop st

/-! ## Verification

Helper lemmas about the string primitives, then one theorem per claim
of the specification review. -/

theorem listStarts_append {n h : List Char} (t : List Char)
    (hs : listStarts n h = true) : listStarts n (h ++ t) = true := by
  induction n generalizing h with
  | nil => rfl
  | cons a as ih =>
    cases h with
    | nil => simp [listStarts] at hs
    | cons b bs =>
      simp only [listStarts, Bool.and_eq_true, decide_eq_true_eq] at hs ⊢
      exact ⟨hs.1, ih hs.2⟩

theorem containsList_nil_needle (t : List Char) : containsList [] t = true := by
  induction t with
  | nil => rfl
  | cons c cs ih => simp [containsList, listStarts, ih]

theorem containsList_of_starts {n h : List Char}
    (hs : listStarts n h = true) : containsList n h = true := by
  cases h with
  | nil => simpa [containsList] using hs
  | cons c cs => simp [containsList, hs]

theorem containsList_append_right {n t : List Char} (h : List Char)
    (hc : containsList n t = true) : containsList n (h ++ t) = true := by
  induction h with
  | nil => simpa using hc
  | cons c cs ih => simp [containsList, ih]

theorem containsList_append_left {n h : List Char} (t : List Char)
    (hc : containsList n h = true) : containsList n (h ++ t) = true := by
  induction h with
  | nil =>
    cases n with
    | nil => exact containsList_nil_needle t
    | cons a as => simp [containsList, listStarts] at hc
  | cons c cs ih =>
    simp only [containsList, Bool.or_eq_true] at hc
    rcases hc with hs | hc
    · exact containsList_of_starts (listStarts_append t hs)
    · simp only [List.cons_append, containsList, Bool.or_eq_true]
      exact Or.inr (ih hc)

theorem strHas_appL {a n : String} (b : String) (h : strHas a n) :
    strHas (a ++ b) n := by
  unfold strHas at h ⊢
  rw [String.data_append]
  exact containsList_append_left b.data h

theorem strHas_appR {b n : String} (a : String) (h : strHas b n) :
    strHas (a ++ b) n := by
  unfold strHas at h ⊢
  rw [String.data_append]
  exact containsList_append_right a.data h

theorem str_ne_empty_of_len {a : String} (h : a.length ≠ 0) : a ≠ "" := by
  intro hc; rw [hc] at h; exact h rfl

theorem append_ne_empty_left (a b : String) (h : a.length ≠ 0) : a ++ b ≠ "" := by
  apply str_ne_empty_of_len
  rw [String.length_append]
  omega

/-! ### Concrete fixtures shared by witnesses and counterexamples -/

def tkFull : AgentToolkit :=
  { webSearch := true, ragSearch := true, python := true,
    memorySave := true, memoryRecall := true }

def tkEmpty : AgentToolkit := {}

/-- A model reply carrying a well-formed webSearch tool call. -/
def identCallText : String :=
  "I will search.\n\x7b\"tool\": \"webSearch\", \"args\": \x7b\"query\": \"x\"\x7d\x7d"

/-- C8.  `detectLoop` returns `true` exactly when at least three
`action`-type steps exist and the last three share one
`(tool, JSON-serialized args)` signature; with fewer than three action
steps it returns `false`. -/
theorem c8_detectLoop_iff (steps : List AgentStep) :
    (detectLoop steps = true ↔
      3 ≤ (steps.filter (fun s => s.type == StepType.action)).length ∧
        ∃ c, ∀ a ∈ (steps.filter (fun s => s.type == StepType.action)).drop
            ((steps.filter (fun s => s.type == StepType.action)).length - 3),
          stepSignature a = c) ∧
    ((steps.filter (fun s => s.type == StepType.action)).length < 3 →
      detectLoop steps = false) := by
  have main : detectLoop steps = true ↔
      3 ≤ (steps.filter (fun s => s.type == StepType.action)).length ∧
        ∃ c, ∀ a ∈ (steps.filter (fun s => s.type == StepType.action)).drop
            ((steps.filter (fun s => s.type == StepType.action)).length - 3),
          stepSignature a = c := by
    unfold detectLoop MAX_LOOP_REPEATS
    set actions := steps.filter (fun s => s.type == StepType.action) with hact
    by_cases h : actions.length < 3
    · simp only [if_pos h, Bool.false_eq_true, false_iff]
      rintro ⟨h3, -⟩
      omega
    · rw [if_neg h]
      have hne : (actions.drop (actions.length - 3)).map stepSignature ≠ [] := by
        have : ((actions.drop (actions.length - 3)).map stepSignature).length = 3 := by
          simp [List.length_drop]
          omega
        intro hc
        rw [hc] at this
        simp at this
      obtain ⟨s0, rest, hcons⟩ := List.exists_cons_of_ne_nil hne
      constructor
      · intro hall
        refine ⟨by omega, ((actions.drop (actions.length - 3)).map stepSignature).getD 0 "",
          fun a ha => ?_⟩
        rw [List.all_eq_true] at hall
        have := hall (stepSignature a) (List.mem_map_of_mem _ ha)
        exact eq_of_beq this
      · rintro ⟨-, c, hc⟩
        rw [List.all_eq_true]
        intro s hs
        rw [List.mem_map] at hs
        obtain ⟨a, ha, rfl⟩ := hs
        have h0 : ((actions.drop (actions.length - 3)).map stepSignature).getD 0 "" = c := by
          rw [hcons]
          have : s0 ∈ (actions.drop (actions.length - 3)).map stepSignature := by
            rw [hcons]; exact List.mem_cons_self _ _
          rw [List.mem_map] at this
          obtain ⟨b, hb, hbs⟩ := this
          simp [List.getD, ← hbs, hc b hb]
        rw [h0, hc a ha]
        exact beq_self_eq_true c
  refine ⟨main, fun hlt => ?_⟩
  cases hdl : detectLoop steps with
  | false => rfl
  | true =>
    have := main.mp hdl
    omega

/-- Witness for C8 at concrete inputs: three identical actions trip the
detector (via the theorem), two do not. -/
theorem c8_witness :
    detectLoop [{ id := 0, type := .action, content := "", tool := some "t", args := some (Json.obj []) },
        { id := 1, type := .action, content := "", tool := some "t", args := some (Json.obj []) },
        { id := 2, type := .action, content := "", tool := some "t", args := some (Json.obj []) }] = true ∧
    detectLoop [{ id := 0, type := .action, content := "", tool := some "t", args := some (Json.obj []) },
        { id := 1, type := .action, content := "", tool := some "t", args := some (Json.obj []) }] = false := by
  constructor
  · exact (c8_detectLoop_iff _).1.mpr ⟨by decide, "t:\x7b\x7d", by decide⟩
  · exact (c8_detectLoop_iff _).2 (by decide)

/-- C9 (amended).  In the `executeTool` race, whichever outcome settles
first wins, but the timeout timer is cleared only by the abort
listener: a pending timer remains after resolution exactly when a race
was entered and the capability itself settled or rejected first. -/
theorem c9_timer_pending_iff (name : String) (args : Json) (tk : AgentToolkit)
    (ab : Bool) (beh : ToolBeh) :
    timerPendingAfter (executeToolModel name args tk ab beh) = true ↔
      (ab = false ∧ toolPresent tk name = true ∧
        ((∃ s, beh = .settles s) ∨ (∃ m, beh = .rejects m))) := by
  cases ab <;> cases beh <;> by_cases h : toolPresent tk name = true <;>
    simp [executeToolModel, timerPendingAfter, h] <;>
    split <;> simp

/-- Counterexample to C9 as stated: when the tool settles first the
race returns its value but the 30-second timer is left pending. -/
theorem c9_counterexample :
    timerPendingAfter (executeToolModel "webSearch" (Json.obj []) tkFull false (.settles "ok")) = true ∧
    (executeToolModel "webSearch" (Json.obj []) tkFull false (.settles "ok")).result = "ok" := by
  decide

/-- C7 (amended).  When the signal is not already aborted, an unknown
tool name resolves to the exact "Unknown tool" message listing the five
valid names, and a known but absent capability resolves to the distinct
"not currently available" message; `executeTool` itself is total (never
rejects) by construction. -/
theorem c7_executeTool_messages (name : String) (args : Json) (tk : AgentToolkit)
    (beh : ToolBeh) :
    ((name ∈ validToolNames → False) →
      (executeToolModel name args tk false beh).result =
        "[Error] Unknown tool \"" ++ name ++ "\". Available: " ++ joinSep ", " validToolNames ∧
      strHas (executeToolModel name args tk false beh).result "Unknown tool" ∧
      ∀ v ∈ validToolNames, strHas (executeToolModel name args tk false beh).result v) ∧
    (name ∈ validToolNames → toolPresent tk name = false →
      (executeToolModel name args tk false beh).result =
        "[Error] " ++ name ++ " is not currently available. Try a different approach." ∧
      strHas (executeToolModel name args tk false beh).result "not currently available") := by
  constructor
  · intro hn
    have hp : toolPresent tk name = false := by
      unfold toolPresent
      split
      · exact absurd (by decide) hn
      · exact absurd (by decide) hn
      · exact absurd (by decide) hn
      · exact absurd (by decide) hn
      · exact absurd (by decide) hn
      · rfl
    have hres : (executeToolModel name args tk false beh).result =
        "[Error] Unknown tool \"" ++ name ++ "\". Available: " ++ joinSep ", " validToolNames := by
      have hn' : ¬ name ∈ validToolNames := fun hm => hn hm
      simp [executeToolModel, hp, hn']
    refine ⟨hres, ?_, ?_⟩
    · rw [hres]
      exact strHas_appL _ (strHas_appL _ (strHas_appL _ (by decide)))
    · intro v hv
      rw [hres]
      apply strHas_appR
      fin_cases hv <;> decide
  · intro hn hp
    have hres : (executeToolModel name args tk false beh).result =
        "[Error] " ++ name ++ " is not currently available. Try a different approach." := by
      simp [executeToolModel, hp, hn]
    refine ⟨hres, ?_⟩
    rw [hres]
    exact strHas_appR _ (by decide)

/-- Counterexample to C7 as stated: with an already-aborted signal even
an unknown tool name resolves to `[Cancelled]`, not to the "Unknown
tool" message. -/
theorem c7_counterexample :
    (executeToolModel "teleport" (Json.obj []) tkFull true ToolBeh.timesOut).result = "[Cancelled]" ∧
    ¬ strHas (executeToolModel "teleport" (Json.obj []) tkFull true ToolBeh.timesOut).result "Unknown tool" := by
  decide

/-- Witness for C7 at concrete inputs. -/
theorem c7_witness :
    strHas (executeToolModel "teleport" (Json.obj []) tkEmpty false (.settles "x")).result "Unknown tool" ∧
    strHas (executeToolModel "python" (Json.obj []) tkEmpty false (.settles "x")).result "not currently available" := by
  constructor
  · exact ((c7_executeTool_messages "teleport" (Json.obj []) tkEmpty (.settles "x")).1 (by decide)).2.1
  · exact ((c7_executeTool_messages "python" (Json.obj []) tkEmpty (.settles "x")).2 (by decide) (by decide)).2

/-- C6 (amended).  The AVAILABLE TOOLS enumeration interpolated into
the prompt lists a tool name only when the capability is present: an
absent capability's name is neither in `availableTools` nor a substring
of the interpolated tool list.  (The prompt as a whole still mentions
all five names in its static reference section — see the
counterexample.) -/
theorem c6_toolList_only_present (tk : AgentToolkit) (name : String)
    (h1 : name ∈ validToolNames) (h2 : toolPresent tk name = false) :
    name ∉ availableTools tk ∧ ¬ strHas (toolListString (availableTools tk)) name := by
  obtain ⟨w, r, p, ms, mr⟩ := tk
  revert h2
  cases w <;> cases r <;> cases p <;> cases ms <;> cases mr <;> fin_cases h1 <;> decide

set_option maxRecDepth 4000 in
/-- Counterexample to C6 as stated: with an empty toolkit the built
prompt still contains the name `python` (in the static tool-reference
section), so an absent capability is mentioned in the prompt. -/
theorem c6_counterexample :
    tkEmpty.python = false ∧
    strHas (buildAgentPrompt "" (availableTools tkEmpty)) "python" := by
  refine ⟨rfl, ?_⟩
  unfold buildAgentPrompt
  exact strHas_appR _ (by decide)

/-- Witness for C6 at a concrete input. -/
theorem c6_witness : ¬ strHas (toolListString (availableTools tkEmpty)) "python" :=
  (c6_toolList_only_present tkEmpty "python" (by decide) (by decide)).2

/-- C10.  `budgetContext` assumes at least two messages: an
over-threshold list with fewer than two entries makes the `msgs[1]`
read out of bounds, so the result contains an `undefined` slot instead
of the system-plus-user prefix. -/
theorem c10_budget_oob (msgs : List Message) (h1 : msgs.length < 2)
    (h2 : MAX_CONTEXT_CHARS < totalChars msgs) :
    none ∈ budgetContext msgs := by
  match msgs, h1 with
  | [], _ => simp [totalChars, MAX_CONTEXT_CHARS] at h2
  | [m], _ =>
    unfold budgetContext
    rw [if_neg (by omega)]
    simp

def bigMsg : Message := { role := "user", content := ⟨List.replicate 12001 'a'⟩ }

theorem bigMsg_len : bigMsg.content.length = 12001 := by
  show (List.replicate 12001 'a').length = 12001
  rw [List.length_replicate]

/-- Witness for C10 at a concrete one-message input. -/
theorem c10_witness : none ∈ budgetContext [bigMsg] :=
  c10_budget_oob [bigMsg] (by decide)
    (by show MAX_CONTEXT_CHARS < totalChars [bigMsg]
        simp only [totalChars, List.map_cons, List.map_nil, List.sum_cons,
          List.sum_nil, bigMsg_len]
        decide)

theorem pickFirst_some {α β : Type} {f : α → Option β} :
    ∀ {l : List α} {b : β}, pickFirst f l = some b → ∃ a ∈ l, f a = some b := by
  intro l
  induction l with
  | nil => intro b h; simp [pickFirst] at h
  | cons a rest ih =>
    intro b h
    unfold pickFirst at h
    split at h
    · exact ⟨a, List.mem_cons_self a rest, by rw [‹f a = some _›]; exact congrArg some (Option.some.inj h)⟩
    · obtain ⟨x, hx, hfx⟩ := ih h
      exact ⟨x, List.mem_cons_of_mem a hx, hfx⟩

theorem kvCapture_ne_nil {cs4 cap : List Char}
    (h : kvCapture cs4 = some cap) : cap ≠ [] := by
  unfold kvCapture at h
  simp only [] at h
  split at h
  · simp at h
  · split at h
    · split at h
      · obtain rfl := Option.some.inj h
        simp_all [List.isEmpty_iff]
      · simp at h
    · simp at h

theorem kvAttempt_ne_nil {key rest : List Char} {cap : List Char}
    (h : kvAttempt key rest = some cap) : cap ≠ [] := by
  unfold kvAttempt at h
  repeat' split at h
  all_goals first
    | simp at h
    | exact kvCapture_ne_nil h

theorem kvTailAt_ne_nil {keys : List (List Char)} {cs cap : List Char}
    (h : kvTailAt keys cs = some cap) : cap ≠ [] := by
  unfold kvTailAt at h
  split at h
  · simp at h
  · split at h
    · obtain ⟨key, -, hk⟩ := pickFirst_some h
      exact kvAttempt_ne_nil hk
    · simp at h

theorem searchKV_ne_nil {keys : List (List Char)} :
    ∀ {cs cap : List Char}, searchKV keys cs = some cap → cap ≠ [] := by
  intro cs
  induction cs with
  | nil => intro cap h; simp [searchKV] at h
  | cons c t ih =>
    intro cap h
    unfold searchKV at h
    split at h
    · exact kvTailAt_ne_nil (by rw [‹kvTailAt keys (c :: t) = some _›, Option.some.inj h])
    · exact ih h

theorem tryAttempts_tool_ne {th : String} :
    ∀ {l : List String} {r : ParsedToolCall}, tryAttempts th l = some r → r.tool ≠ "" := by
  intro l
  induction l with
  | nil => intro r h; simp [tryAttempts] at h
  | cons a rest ih =>
    intro r h
    unfold tryAttempts at h
    split at h
    · split at h
      · split at h
        · obtain rfl := Option.some.inj h
          assumption
        · exact ih h
      · exact ih h
    · exact ih h

/-- Every successful candidate parse yields a non-empty tool name. -/
theorem parseCandidate_tool_ne {th cand : String} {tc : ParsedToolCall}
    (h : parseCandidate th cand = some tc) : tc.tool ≠ "" := by
  unfold parseCandidate at h
  simp only [] at h
  split at h
  · simp at h
  · split at h
    · obtain rfl := Option.some.inj h
      exact tryAttempts_tool_ne ‹tryAttempts _ _ = some _›
    · split at h
      · obtain rfl := Option.some.inj h
        have hne := searchKV_ne_nil ‹searchKV _ _ = some _›
        show (⟨_⟩ : String) ≠ ""
        intro hc
        exact hne (by simpa using congrArg String.data hc)
      · simp at h

/-- C5.  `parseToolCall` (a total Lean function — the source never
throws, every `JSON.parse` sits inside `try`/`catch`) returns either
`none` or a call whose `tool` field is a non-empty string: the JSON
path requires `parsed.tool` to be a truthy (hence non-empty) string and
the regex fallback's `+` captures at least one character; `args`
defaults to `{}` when absent by construction of `argsOf`. -/
theorem c5_parseToolCall_safe (s : String) (tc : ParsedToolCall)
    (h : parseToolCall s = some tc) : tc.tool ≠ "" := by
  unfold parseToolCall at h
  exact parseCandidate_tool_ne h

/-- Witness for C5 at a concrete input. -/
theorem c5_witness :
    (⟨"I will search.", "webSearch", Json.obj [("query", Json.str "x")]⟩ : ParsedToolCall).tool ≠ "" :=
  c5_parseToolCall_safe identCallText _ (by rfl)

theorem strTake_len (s : String) (n : Nat) : (strTake s n).length = min n s.length := by
  show (s.data.take n).length = min n s.data.length
  rw [List.length_take]

theorem totalChars_cons (m : Message) (l : List Message) :
    totalChars (m :: l) = m.content.length + totalChars l := by
  simp [totalChars]

theorem totalChars_append (x y : List Message) :
    totalChars (x ++ y) = totalChars x + totalChars y := by
  simp [totalChars]

theorem totalCharsOpt_cons (m : Option Message) (l : List (Option Message)) :
    totalCharsOpt (m :: l) =
      (match m with | some m => m.content.length | none => 0) + totalCharsOpt l := by
  simp [totalCharsOpt]

theorem totalCharsOpt_append (x y : List (Option Message)) :
    totalCharsOpt (x ++ y) = totalCharsOpt x + totalCharsOpt y := by
  simp [totalCharsOpt]

theorem totalCharsOpt_nil : totalCharsOpt [] = 0 := rfl

theorem totalCharsOpt_map_some (l : List Message) :
    totalCharsOpt (l.map some) = totalChars l := by
  simp only [totalCharsOpt, totalChars, List.map_map]
  rfl

/-- A compressed entry is at most 211 characters: the role tag is at
most `"[Agent] "` (8) and the truncated content is 200 plus `"..."`. -/
theorem summaryEntry_len_le (m : Message) (h : 200 < m.content.length) :
    (summaryEntry m).length ≤ 211 := by
  unfold summaryEntry
  simp only []
  rw [if_pos (by omega : m.content.length > 200)]
  have h1 : ("[" : String).length = 1 := rfl
  have h3 : ("] " : String).length = 2 := rfl
  have h4 : ("..." : String).length = 3 := rfl
  by_cases hr : m.role = "assistant"
  · rw [if_pos hr, String.length_append, String.length_append, String.length_append,
      String.length_append, strTake_len, h1, h3, h4]
    have h2 : ("Agent" : String).length = 5 := rfl
    rw [h2]
    omega
  · rw [if_neg hr, String.length_append, String.length_append, String.length_append,
      String.length_append, strTake_len, h1, h3, h4]
    have h2 : ("Tool" : String).length = 4 := rfl
    rw [h2]
    omega

/-- The joined compressed entries (plus the 86 characters of summary
wrapper) are strictly shorter than the compressed messages themselves,
provided each of those messages holds at least 300 characters. -/
theorem joined_entries_lt (l : List Message) (hne : l ≠ [])
    (hall : ∀ m ∈ l, 300 ≤ m.content.length) :
    (joinSep "\n" (l.map summaryEntry)).length + 86 < totalChars l := by
  induction l with
  | nil => exact absurd rfl hne
  | cons a rest ih =>
    have ha := hall a (List.mem_cons_self a rest)
    have hea := summaryEntry_len_le a (by omega)
    cases rest with
    | nil =>
      show (summaryEntry a).length + 86 < totalChars [a]
      rw [totalChars_cons]
      simp [totalChars]
      omega
    | cons b rest2 =>
      have hstep : joinSep "\n" ((a :: b :: rest2).map summaryEntry) =
          summaryEntry a ++ "\n" ++ joinSep "\n" ((b :: rest2).map summaryEntry) := rfl
      rw [hstep, String.length_append, String.length_append, totalChars_cons]
      have hnl : ("\n" : String).length = 1 := rfl
      rw [hnl]
      have ihh := ih (by simp) (fun m hm => hall m (List.mem_cons_of_mem a hm))
      omega

/-- C4 (amended).  Under the character threshold `budgetContext`
returns the input unchanged; over the threshold (with the two messages
the code assumes) the output has at most `2 + 1 + recentCount` entries;
and the total character length strictly shrinks whenever a compressed
middle exists (more than 6 messages) whose members each carry at least
300 characters — without that proviso the output can be as large as the
input (see the counterexample). -/
theorem c4_budgetContext (msgs : List Message) :
    (totalChars msgs ≤ MAX_CONTEXT_CHARS → budgetContext msgs = msgs.map some) ∧
    (MAX_CONTEXT_CHARS < totalChars msgs → 2 ≤ msgs.length →
      (budgetContext msgs).length ≤ 2 + 1 + min 4 (msgs.length - 2)) ∧
    (MAX_CONTEXT_CHARS < totalChars msgs → 6 < msgs.length →
      (∀ m ∈ (msgs.drop 2).take (msgs.length - 6), 300 ≤ m.content.length) →
      totalCharsOpt (budgetContext msgs) < totalChars msgs) := by
  refine ⟨fun h => ?_, fun h h2 => ?_, fun h h6 hall => ?_⟩
  · unfold budgetContext
    rw [if_pos h]
  · unfold budgetContext
    rw [if_neg (by omega)]
    simp only []
    split <;>
      · simp only [List.length_append, List.length_map, List.length_drop,
          List.length_cons, List.length_nil]
        omega
  · match msgs, h6 with
    | a :: b :: t, h6 =>
      have htlen : 5 ≤ t.length := by
        have : (a :: b :: t).length = t.length + 2 := by simp
        omega
      have hmin : min 4 t.length = 4 := by omega
      have hd : ((a :: b :: t).drop 2) = t := rfl
      have hi : (a :: b :: t).length - 6 = t.length - 4 := by
        have : (a :: b :: t).length = t.length + 2 := by simp
        omega
      rw [hd, hi] at hall
      have hold_ne : t.take (t.length - 4) ≠ [] := by
        have : (t.take (t.length - 4)).length = min (t.length - 4) t.length := by
          rw [List.length_take]
        intro hc
        rw [hc] at this
        simp at this
        omega
      have hjoin := joined_entries_lt (t.take (t.length - 4)) hold_ne hall
      have hsplit : totalChars (t.take (t.length - 4)) + totalChars (t.drop (t.length - 4)) =
          totalChars t := by
        rw [← totalChars_append, List.take_append_drop]
      unfold budgetContext
      rw [if_neg (by omega)]
      simp only [hd, List.length_cons, hmin]
      rw [if_pos (by
        rw [List.length_take]
        omega)]
      simp only [List.get?_cons_zero, List.get?_cons_succ, totalCharsOpt_append,
        totalCharsOpt_map_some, totalCharsOpt_cons, totalCharsOpt_nil]
      rw [totalChars_cons, totalChars_cons]
      have hw1 : ("[Previous context summary]\n" : String).length = 27 := rfl
      have hw2 : ("\n[End summary — focus on the most recent information below]" : String).length = 59 := rfl
      rw [String.length_append, String.length_append, hw1, hw2]
      omega

def wideMsgA : Message := { role := "system", content := ⟨List.replicate 7000 'a'⟩ }

def wideMsgB : Message := { role := "user", content := ⟨List.replicate 7000 'b'⟩ }

theorem wideMsgA_len : wideMsgA.content.length = 7000 := by
  show (List.replicate 7000 'a').length = 7000
  rw [List.length_replicate]

theorem wideMsgB_len : wideMsgB.content.length = 7000 := by
  show (List.replicate 7000 'b').length = 7000
  rw [List.length_replicate]

/-- Counterexample to C4 as stated: two 7000-character messages are
over the threshold, yet `budgetContext` has nothing to compress (the
slice strictly between the kept prefix and the recent window is empty)
and returns the messages intact, so the total character length does not
strictly shrink. -/
theorem c4_counterexample :
    2 ≤ ([wideMsgA, wideMsgB] : List Message).length ∧
    MAX_CONTEXT_CHARS < totalChars [wideMsgA, wideMsgB] ∧
    ¬ totalCharsOpt (budgetContext [wideMsgA, wideMsgB]) < totalChars [wideMsgA, wideMsgB] := by
  have ht : totalChars [wideMsgA, wideMsgB] = 14000 := by
    rw [totalChars_cons, totalChars_cons, wideMsgA_len, wideMsgB_len]
    rfl
  refine ⟨by simp, by rw [ht]; decide, ?_⟩
  unfold budgetContext
  rw [if_neg (by rw [ht]; decide)]
  simp only [List.get?_cons_zero, List.get?_cons_succ, List.get?_nil]
  rw [if_neg (by simp)]
  simp only [List.drop_succ_cons, List.drop_nil, List.drop_zero, List.map_nil,
    List.append_nil, totalCharsOpt_cons, totalCharsOpt_nil]
  rw [ht, wideMsgA_len, wideMsgB_len]
  decide

def midMsg : Message := { role := "assistant", content := ⟨List.replicate 2000 'c'⟩ }

theorem midMsg_len : midMsg.content.length = 2000 := by
  show (List.replicate 2000 'c').length = 2000
  rw [List.length_replicate]

def msgsSeven : List Message :=
  [midMsg, midMsg, midMsg, midMsg, midMsg, midMsg, midMsg]

theorem msgsSeven_chars : totalChars msgsSeven = 14000 := by
  show totalChars [midMsg, midMsg, midMsg, midMsg, midMsg, midMsg, midMsg] = 14000
  simp only [totalChars_cons, midMsg_len]
  rfl

/-- Witness for C4 at concrete inputs: all three conjuncts applied to
explicit message lists. -/
theorem c4_witness :
    budgetContext [midMsg] = [some midMsg] ∧
    (budgetContext msgsSeven).length ≤ 2 + 1 + min 4 (msgsSeven.length - 2) ∧
    totalCharsOpt (budgetContext msgsSeven) < totalChars msgsSeven := by
  refine ⟨?_, ?_, ?_⟩
  · have := (c4_budgetContext [midMsg]).1 (by
      rw [totalChars_cons, midMsg_len]
      show 2000 + totalChars [] ≤ MAX_CONTEXT_CHARS
      decide)
    simpa using this
  · exact (c4_budgetContext msgsSeven).2.1 (by rw [msgsSeven_chars]; decide) (by decide)
  · refine (c4_budgetContext msgsSeven).2.2 (by rw [msgsSeven_chars]; decide) (by decide) ?_
    intro m hm
    have : m = midMsg := by
      simpa [msgsSeven] using hm
    rw [this, midMsg_len]
    omega

def identGen : Nat → GenOut := fun _ => .ok identCallText

def identToolBeh : Nat → ToolBeh := fun _ => .settles "THE RESULT"

set_option maxRecDepth 8000 in
/-- C3 (code bug).  A run cancelled during its second generation stops
iterating, synthesizes the final answer from the last observation
(prefixed as a partial result) and sets status `done` — but the
synthesized answer is never recorded as a `final` step: `addStep`
returns early once `signal.aborted` is set, so the abort path's
`addStep({type: "final", ...})` call is dead and the ledger ends
without any `final` entry. -/
theorem c3_abort_final_not_recorded :
    (runLoop "What?" tkFull identGen identToolBeh (fun n => n == 2) "").2 =
      "Stopped by user. Partial result:\n\nTHE RESULT" ∧
    (runLoop "What?" tkFull identGen identToolBeh (fun n => n == 2) "").1.status = .done ∧
    ((runLoop "What?" tkFull identGen identToolBeh (fun n => n == 2) "").1.steps.filter
      (fun s => s.type == StepType.observation)).length = 1 ∧
    ((runLoop "What?" tkFull identGen identToolBeh (fun n => n == 2) "").1.steps.filter
      (fun s => s.type == StepType.final)).length = 0 := by
  decide

set_option maxRecDepth 8000 in
/-- Counterexample to C2 as stated: with a generator that emits the
identical tool call on every iteration, `runLoop` does not terminate by
iteration 4 — the repeat-blocked turns keep consuming iterations and
the loop runs to the cap of 8. -/
theorem c2_counterexample :
    ¬ ((runLoop "What?" tkFull identGen identToolBeh (fun _ => false) "").1.currentIteration ≤ 4) := by
  decide

@[simp] theorem addStep_finalAnswer (st : LoopSt) (s : StepInit) :
    (addStep st s).finalAnswer = st.finalAnswer := by
  unfold addStep
  split <;> rfl

@[simp] theorem addStep_status (st : LoopSt) (s : StepInit) :
    (addStep st s).status = st.status := by
  unfold addStep
  split <;> rfl

@[simp] theorem addStep_aborted (st : LoopSt) (s : StepInit) :
    (addStep st s).aborted = st.aborted := by
  unfold addStep
  split <;> rfl

@[simp] theorem addStep_msgs (st : LoopSt) (s : StepInit) :
    (addStep st s).msgs = st.msgs := by
  unfold addStep
  split <;> rfl

@[simp] theorem addStep_currentIteration (st : LoopSt) (s : StepInit) :
    (addStep st s).currentIteration = st.currentIteration := by
  unfold addStep
  split <;> rfl

@[simp] theorem addStep_nGen (st : LoopSt) (s : StepInit) :
    (addStep st s).nGen = st.nGen := by
  unfold addStep
  split <;> rfl

@[simp] theorem addStep_nTool (st : LoopSt) (s : StepInit) :
    (addStep st s).nTool = st.nTool := by
  unfold addStep
  split <;> rfl

@[simp] theorem addStep_nAwait (st : LoopSt) (s : StepInit) :
    (addStep st s).nAwait = st.nAwait := by
  unfold addStep
  split <;> rfl

theorem ite_addStep_finalAnswer (c : Prop) [Decidable c] (st : LoopSt) (s : StepInit) :
    (if c then addStep st s else st).finalAnswer = st.finalAnswer := by
  split <;> simp

/-- When the signal has not aborted, `addStep` appends its step. -/
theorem addStep_steps_of_not_aborted {st : LoopSt} (s : StepInit)
    (h : st.aborted = false) :
    (addStep st s).steps = st.steps ++
      [{ id := (st.stepId : Int), type := s.type, content := s.content,
         tool := s.tool, args := s.args, timestamp := 0, durationMs := s.durationMs }] := by
  unfold addStep
  rw [h]
  rfl

set_option maxHeartbeats 1000000 in
/-- Every branch of one loop iteration keeps the terminal invariant:
an early `return` carries a non-empty error string and status `error`;
a `break` leaves either no final answer or status `done`; a `continue`
leaves no final answer. -/
theorem runIteration_analysis {g : Nat → GenOut} {t : Nat → ToolBeh} {ab : Nat → Bool}
    {tk : AgentToolkit} {st st2 : LoopSt} {i : Nat} {r : IterRes}
    (h : runIteration g t ab tk st i = (st2, r)) (h0 : st.finalAnswer = "") :
    (match r with
     | .ret s => s ≠ "" ∧ st2.status = AgentStatus.error
     | .brk => st2.finalAnswer = "" ∨ st2.status = AgentStatus.done
     | .next => st2.finalAnswer = "") := by
  unfold runIteration at h
  simp only [] at h
  split at h
  · -- aborted at loop top
    injection h with h1 h2
    subst h1; subst h2
    exact Or.inl h0
  · split at h
    · -- generation failed
      split at h
      · -- aborted after the failed call
        injection h with h1 h2
        subst h1; subst h2
        exact Or.inl h0
      · injection h with h1 h2
        subst h1; subst h2
        exact ⟨append_ne_empty_left _ _ (by decide), rfl⟩
    · -- generation succeeded
      rename_i raw hgen
      split at h
      · -- aborted after the call
        injection h with h1 h2
        subst h1; subst h2
        exact Or.inl h0
      · cases hp : parseToolCall (jsTrim (stripThink raw)) with
        | none =>
          rw [hp] at h
          simp only [] at h
          injection h with h1 h2
          subst h1; subst h2
          exact Or.inr rfl
        | some toolCall =>
          rw [hp] at h
          simp only [] at h
          split at h
          · -- loop detected: continue
            injection h with h1 h2
            subst h1; subst h2
            show (addStep _ _).finalAnswer = ""
            rw [addStep_finalAnswer]
            exact h0
          · -- execute the tool: the thought-step conditional splits
            -- first, then the post-race abort check
            split at h <;> split at h
            · injection h with h1 h2
              subst h1; subst h2
              refine Or.inl ?_
              simp only [addStep_finalAnswer]
              exact h0
            · injection h with h1 h2
              subst h1; subst h2
              simp only [addStep_finalAnswer]
              exact h0
            · injection h with h1 h2
              subst h1; subst h2
              refine Or.inl ?_
              simp only [addStep_finalAnswer]
              exact h0
            · injection h with h1 h2
              subst h1; subst h2
              simp only [addStep_finalAnswer]
              exact h0

theorem abortAnswer_ne (st : LoopSt) : abortAnswer st ≠ "" := by
  unfold abortAnswer
  split
  · exact append_ne_empty_left _ _ (by decide)
  · decide

theorem fallbackAnswer_ne (st : LoopSt) : fallbackAnswer st ≠ "" := by
  unfold fallbackAnswer
  split
  · exact append_ne_empty_left _ _ (by decide)
  · decide

theorem finishAbort_of_aborted (st : LoopSt) (ha : st.aborted = true) :
    (finishAbort st).finalAnswer ≠ "" ∧ (finishAbort st).status = AgentStatus.done ∧
      (finishAbort st).aborted = true := by
  unfold finishAbort
  rw [if_pos ha]
  refine ⟨?_, rfl, ?_⟩
  · show (addStep _ _).finalAnswer ≠ ""
    rw [addStep_finalAnswer]
    exact abortAnswer_ne st
  · show (addStep _ _).aborted = true
    rw [addStep_aborted]
    exact ha

theorem finishAbort_of_not_aborted (st : LoopSt) (ha : st.aborted = false) :
    finishAbort st = st := by
  unfold finishAbort
  rw [if_neg (by simp [ha])]

theorem finishFallback_of_empty (st : LoopSt) (hf : st.finalAnswer = "")
    (ha : st.aborted = false) :
    (finishFallback st).finalAnswer ≠ "" ∧ (finishFallback st).status = AgentStatus.done := by
  unfold finishFallback
  rw [if_pos ⟨hf, ha⟩]
  refine ⟨?_, rfl⟩
  show (addStep _ _).finalAnswer ≠ ""
  rw [addStep_finalAnswer]
  exact fallbackAnswer_ne st

theorem finishFallback_of_filled (st : LoopSt) (hf : st.finalAnswer ≠ "") :
    finishFallback st = st := by
  unfold finishFallback
  rw [if_neg (by intro hc; exact hf hc.1)]

/-- After the loop, the terminal handling always produces a non-empty
answer and status `done`. -/
theorem finishLoop_shape (st : LoopSt)
    (h : st.finalAnswer = "" ∨ st.status = AgentStatus.done) :
    (finishLoop st).2 ≠ "" ∧ (finishLoop st).1.status = AgentStatus.done := by
  unfold finishLoop
  simp only []
  cases ha : st.aborted with
  | true =>
    obtain ⟨h1, h2, h3⟩ := finishAbort_of_aborted st ha
    rw [finishFallback_of_filled _ h1]
    exact ⟨h1, h2⟩
  | false =>
    rw [finishAbort_of_not_aborted st ha]
    by_cases hf : st.finalAnswer = ""
    · obtain ⟨h1, h2⟩ := finishFallback_of_empty st hf ha
      exact ⟨h1, h2⟩
    · rw [finishFallback_of_filled st hf]
      rcases h with h | h
      · exact absurd h hf
      · exact ⟨hf, h⟩

/-- The loop from any point: an early return is a non-empty error
answer with status `error`; otherwise the exit state satisfies the
terminal invariant. -/
theorem runFrom_shape (g : Nat → GenOut) (t : Nat → ToolBeh) (ab : Nat → Bool)
    (tk : AgentToolkit) :
    ∀ (fuel i : Nat) (st : LoopSt), st.finalAnswer = "" →
      (∀ st2 s, runFrom g t ab tk i fuel st = (st2, some s) →
        s ≠ "" ∧ st2.status = AgentStatus.error) ∧
      (∀ st2, runFrom g t ab tk i fuel st = (st2, none) →
        st2.finalAnswer = "" ∨ st2.status = AgentStatus.done) := by
  intro fuel
  induction fuel with
  | zero =>
    intro i st h0
    refine ⟨fun st2 s h => by simp [runFrom] at h, fun st2 h => ?_⟩
    unfold runFrom at h
    injection h with h1 h2
    subst h1
    exact Or.inl h0
  | succ n ih =>
    intro i st h0
    constructor
    · intro st2 s h
      unfold runFrom at h
      split at h
      · -- ret
        injection h with h1 h2
        subst h1
        obtain rfl := Option.some.inj h2
        have := runIteration_analysis ‹runIteration g t ab tk st i = _› h0
        exact this
      · simp at h
      · -- next
        have hfa := runIteration_analysis ‹runIteration g t ab tk st i = _› h0
        exact (ih (i + 1) _ hfa).1 st2 s h
    · intro st2 h
      unfold runFrom at h
      split at h
      · simp at h
      · -- brk
        injection h with h1 h2
        subst h1
        have := runIteration_analysis ‹runIteration g t ab tk st i = _› h0
        exact this
      · have hfa := runIteration_analysis ‹runIteration g t ab tk st i = _› h0
        exact (ih (i + 1) _ hfa).2 st2 h

/-- C1.  For every query, toolkit, generator behaviour, tool behaviour
and cancellation timing, `runLoop` terminates (it is a total function of
its oracles) with a non-empty returned string, and the session ends in
a terminal status: `done` (final answer, cancellation, or iteration
cap) or `error` (generation failure). -/
theorem c1_runLoop_terminal (query : String) (tools : AgentToolkit)
    (gen : Nat → GenOut) (toolBeh : Nat → ToolBeh) (abortAt : Nat → Bool)
    (sysPrompt : String) :
    (runLoop query tools gen toolBeh abortAt sysPrompt).2 ≠ "" ∧
    ((runLoop query tools gen toolBeh abortAt sysPrompt).1.status = AgentStatus.done ∨
      (runLoop query tools gen toolBeh abortAt sysPrompt).1.status = AgentStatus.error) := by
  unfold runLoop
  simp only []
  split
  · rename_i st s heq
    have hh := (runFrom_shape gen toolBeh abortAt tools MAX_ITERATIONS 0 _ rfl).1 st s heq
    exact ⟨hh.1, Or.inr hh.2⟩
  · rename_i st heq
    have hh := (runFrom_shape gen toolBeh abortAt tools MAX_ITERATIONS 0 _ rfl).2 st heq
    obtain ⟨h1, h2⟩ := finishLoop_shape st hh
    exact ⟨h1, Or.inl h2⟩

/-! ### The C2 scenario: a generator that always emits the identical
tool call -/

theorem exec_abortedDuring {name : String} {args : Json} {tk : AgentToolkit}
    {ab : Bool} {beh : ToolBeh} (h : beh ≠ ToolBeh.abortFires) :
    (executeToolModel name args tk ab beh).abortedDuring = false := by
  cases beh with
  | abortFires => exact absurd rfl h
  | settles s => unfold executeToolModel; split_ifs <;> rfl
  | rejects m => unfold executeToolModel; split_ifs <;> rfl
  | timesOut => unfold executeToolModel; split_ifs <;> rfl

/-- The action signatures recorded in the ledger. -/
def actionSigsOf (st : LoopSt) : List String :=
  (st.steps.filter (fun s => s.type == StepType.action)).map stepSignature

/-- The number of `error` steps in the ledger. -/
def errCount (st : LoopSt) : Nat :=
  (st.steps.filter (fun s => s.type == StepType.error)).length

/-- The number of `observation` steps in the ledger. -/
def obsCount (st : LoopSt) : Nat :=
  (st.steps.filter (fun s => s.type == StepType.observation)).length

theorem stepType_beq (a b : StepType) : (a == b) = decide (a = b) := by
  cases a <;> cases b <;> rfl

/-- A repeat-blocked iteration: the model repeats the identical call,
the detector trips, no tool executes, one `error` step is recorded and
the iteration continues. -/
theorem iterB {txt : String} {tc : ParsedToolCall} {t : Nat → ToolBeh}
    {tk : AgentToolkit}
    (hp : parseToolCall (jsTrim (stripThink txt)) = some tc)
    (st : LoopSt) (i : Nat)
    (hab : st.aborted = false) (hfa : st.finalAnswer = "")
    (hdet : detectLoop (st.steps ++ [probeStep tc]) = true) :
    ∃ st2, runIteration (fun _ => GenOut.ok txt) t (fun _ => false) tk st i = (st2, .next) ∧
      st2.aborted = false ∧ st2.finalAnswer = "" ∧
      st2.nGen = st.nGen + 1 ∧ st2.currentIteration = i + 1 ∧
      st2.nTool = st.nTool ∧
      actionSigsOf st2 = actionSigsOf st ∧
      errCount st2 = errCount st + 1 ∧
      obsCount st2 = obsCount st := by
  unfold runIteration
  rw [if_neg (by simp [hab])]
  simp only []
  rw [hp]
  simp only [hab, Bool.false_or]
  rw [if_neg (by simp)]
  rw [if_pos hdet]
  refine ⟨_, rfl, ?_, ?_, ?_, ?_, ?_, ?_, ?_, ?_⟩
  · show (addStep _ _).aborted = false
    rw [addStep_aborted]
  · show (addStep _ _).finalAnswer = ""
    rw [addStep_finalAnswer]
    exact hfa
  · show (addStep _ _).nGen = st.nGen + 1
    rw [addStep_nGen]
  · show (addStep _ _).currentIteration = i + 1
    rw [addStep_currentIteration]
  · show (addStep _ _).nTool = st.nTool
    rw [addStep_nTool]
  · show actionSigsOf _ = actionSigsOf st
    unfold actionSigsOf
    show ((addStep _ _).steps.filter _).map _ = _
    rw [addStep_steps_of_not_aborted _ (by simp)]
    simp [List.filter_append, List.filter_cons, stepType_beq]
  · show errCount _ = errCount st + 1
    unfold errCount
    show ((addStep _ _).steps.filter _).length = _
    rw [addStep_steps_of_not_aborted _ (by simp)]
    simp [List.filter_append, List.filter_cons, stepType_beq]
  · show obsCount _ = obsCount st
    unfold obsCount
    show ((addStep _ _).steps.filter _).length = _
    rw [addStep_steps_of_not_aborted _ (by simp)]
    simp [List.filter_append, List.filter_cons, stepType_beq]

/-- A tool-executing iteration: the call is parsed, the detector does
not trip, the (optional) thought, the action and the observation are
recorded, and at most one capability race is consumed. -/
theorem iterA {txt : String} {tc : ParsedToolCall} {t : Nat → ToolBeh}
    {tk : AgentToolkit}
    (hp : parseToolCall (jsTrim (stripThink txt)) = some tc)
    (hbeh : ∀ n, t n ≠ ToolBeh.abortFires)
    (st : LoopSt) (i : Nat)
    (hab : st.aborted = false) (hfa : st.finalAnswer = "")
    (hdet : detectLoop (st.steps ++ [probeStep tc]) = false) :
    ∃ st2, runIteration (fun _ => GenOut.ok txt) t (fun _ => false) tk st i = (st2, .next) ∧
      st2.aborted = false ∧ st2.finalAnswer = "" ∧
      st2.nGen = st.nGen + 1 ∧ st2.currentIteration = i + 1 ∧
      st2.nTool ≤ st.nTool + 1 ∧
      actionSigsOf st2 = actionSigsOf st ++ [stepSignature (probeStep tc)] ∧
      errCount st2 = errCount st ∧
      obsCount st2 = obsCount st + 1 := by
  have hdur : ∀ n (name : String) (args : Json) (ab : Bool),
      (executeToolModel name args tk ab (t n)).abortedDuring = false :=
    fun n _ _ _ => exec_abortedDuring (hbeh n)
  unfold runIteration
  rw [if_neg (by simp [hab])]
  simp only []
  rw [hp]
  simp only [hab, Bool.false_or]
  rw [if_neg (by simp)]
  rw [if_neg (by simp [hdet])]
  by_cases hth : tc.thought ≠ ""
  · rw [if_pos hth]
    rw [if_neg (by simp [addStep_aborted, hdur])]
    refine ⟨_, rfl, ?_, ?_, ?_, ?_, ?_, ?_, ?_, ?_⟩
    · simp [addStep_aborted, hdur]
    · simp [addStep_finalAnswer, hfa]
    · simp [addStep_nGen]
    · simp [addStep_currentIteration]
    · simp only [addStep_nTool]
      split <;> omega
    · unfold actionSigsOf
      simp [addStep_steps_of_not_aborted, addStep_aborted, hdur,
        List.filter_append, List.filter_cons, stepType_beq, stepSignature, probeStep]
    · unfold errCount
      simp [addStep_steps_of_not_aborted, addStep_aborted, hdur,
        List.filter_append, List.filter_cons, stepType_beq]
    · unfold obsCount
      simp [addStep_steps_of_not_aborted, addStep_aborted, hdur,
        List.filter_append, List.filter_cons, stepType_beq]
  · rw [if_neg hth]
    rw [if_neg (by simp [addStep_aborted, hdur])]
    refine ⟨_, rfl, ?_, ?_, ?_, ?_, ?_, ?_, ?_, ?_⟩
    · simp [addStep_aborted, hdur]
    · simp [addStep_finalAnswer, hfa]
    · simp [addStep_nGen]
    · simp [addStep_currentIteration]
    · simp only [addStep_nTool]
      split <;> omega
    · unfold actionSigsOf
      simp [addStep_steps_of_not_aborted, addStep_aborted, hdur,
        List.filter_append, List.filter_cons, stepType_beq, stepSignature, probeStep]
    · unfold errCount
      simp [addStep_steps_of_not_aborted, addStep_aborted, hdur,
        List.filter_append, List.filter_cons, stepType_beq]
    · unfold obsCount
      simp [addStep_steps_of_not_aborted, addStep_aborted, hdur,
        List.filter_append, List.filter_cons, stepType_beq]

/-- One `.next` step of `runFrom` consumes one unit of fuel. -/
theorem runFrom_next (fuel : Nat) {g : Nat → GenOut} {t : Nat → ToolBeh}
    {ab : Nat → Bool} {tk : AgentToolkit} {st st2 : LoopSt} {i : Nat}
    (h : runIteration g t ab tk st i = (st2, IterRes.next)) :
    runFrom g t ab tk i (fuel + 1) st = runFrom g t ab tk (i + 1) fuel st2 := by
  simp only [runFrom, h]

theorem drop_replicate_str (n m : Nat) (s : String) :
    (List.replicate n s).drop m = List.replicate (n - m) s := by
  induction n generalizing m with
  | zero => simp
  | succ k ih =>
    cases m with
    | zero => simp
    | succ j =>
      rw [List.replicate_succ]
      simp [Nat.succ_sub_succ, ih j]

/-- A replicated signature list always passes the all-equal check. -/
theorem all_eq_getD_replicate (n : Nat) (s : String) :
    ((List.replicate n s).all fun x => x == (List.replicate n s).getD 0 "") = true := by
  cases n with
  | zero => rfl
  | succ m =>
    rw [List.replicate_succ]
    simp only [List.getD_cons_zero, List.all_cons, beq_self_eq_true, Bool.true_and]
    rw [List.all_eq_true]
    intro x hx
    rw [List.eq_of_mem_replicate hx]
    exact beq_self_eq_true s

/-- When the ledger holds exactly `k` action steps, all carrying the
candidate's signature, the repeat detector on ledger-plus-candidate
trips exactly when `k ≥ 2`. -/
theorem detectLoop_probe {st : LoopSt} {tc : ParsedToolCall} {k : Nat}
    (h : actionSigsOf st = List.replicate k (stepSignature (probeStep tc))) :
    detectLoop (st.steps ++ [probeStep tc]) = decide (2 ≤ k) := by
  have hmap : (st.steps.filter (fun s => s.type == StepType.action)).map stepSignature
      = List.replicate k (stepSignature (probeStep tc)) := h
  have hlen : (st.steps.filter (fun s => s.type == StepType.action)).length = k := by
    have hl := congrArg List.length hmap
    simpa using hl
  have hfil : (st.steps ++ [probeStep tc]).filter (fun s => s.type == StepType.action)
      = st.steps.filter (fun s => s.type == StepType.action) ++ [probeStep tc] := by
    rw [List.filter_append]
    rfl
  unfold detectLoop
  simp only []
  rw [hfil]
  simp only [List.length_append, List.length_cons, List.length_nil, Nat.zero_add, hlen,
    MAX_LOOP_REPEATS]
  by_cases hk : 2 ≤ k
  · rw [if_neg (by omega), decide_eq_true hk]
    rw [List.map_drop, List.map_append, hmap, List.map_cons, List.map_nil,
      ← List.replicate_succ', drop_replicate_str]
    rw [show k + 1 - (k + 1 - 3) = 3 from by omega]
    exact all_eq_getD_replicate 3 _
  · rw [if_pos (by omega)]
    exact (decide_eq_false hk).symm

/-- Any run of repeat-blocked iterations: the detector keeps tripping,
no tool executes, each turn records one `error` step and consumes one
iteration and one generation. -/
theorem chainB {txt : String} {tc : ParsedToolCall} {t : Nat → ToolBeh} {tk : AgentToolkit}
    (hp : parseToolCall (jsTrim (stripThink txt)) = some tc) :
    ∀ (m i : Nat) (st : LoopSt), st.aborted = false → st.finalAnswer = "" →
      actionSigsOf st = List.replicate 2 (stepSignature (probeStep tc)) →
      ∃ st2, runFrom (fun _ => GenOut.ok txt) t (fun _ => false) tk i (m + 1) st = (st2, none) ∧
        st2.aborted = false ∧ st2.finalAnswer = "" ∧
        st2.nGen = st.nGen + (m + 1) ∧ st2.currentIteration = i + m + 1 ∧
        st2.nTool = st.nTool ∧
        actionSigsOf st2 = List.replicate 2 (stepSignature (probeStep tc)) ∧
        errCount st2 = errCount st + (m + 1) ∧ obsCount st2 = obsCount st := by
  intro m
  induction m with
  | zero =>
    intro i st hab hfa hsig
    have hdet : detectLoop (st.steps ++ [probeStep tc]) = true :=
      (detectLoop_probe hsig).trans rfl
    obtain ⟨st2, e, a, f, g, ii, tt, s, r, o⟩ := iterB hp st i hab hfa hdet
    refine ⟨st2, ?_, a, f, g, ?_, tt, ?_, r, o⟩
    · rw [runFrom_next 0 e]
      rfl
    · omega
    · rw [s, hsig]
  | succ m ih =>
    intro i st hab hfa hsig
    have hdet : detectLoop (st.steps ++ [probeStep tc]) = true :=
      (detectLoop_probe hsig).trans rfl
    obtain ⟨st2, e, a, f, g, ii, tt, s, r, o⟩ := iterB hp st i hab hfa hdet
    have hsig2 : actionSigsOf st2 = List.replicate 2 (stepSignature (probeStep tc)) := by
      rw [s, hsig]
    obtain ⟨st3, e3, a3, f3, g3, i3, t3, s3, r3, o3⟩ := ih (i + 1) st2 a f hsig2
    refine ⟨st3, ?_, a3, f3, ?_, ?_, ?_, s3, ?_, ?_⟩
    · rw [runFrom_next (m + 1) e]
      exact e3
    · omega
    · omega
    · omega
    · omega
    · omega

/-- The full eight-iteration run under an identically repeating
generator: two tool turns, then six repeat-blocked turns. -/
theorem runchain {txt : String} {tc : ParsedToolCall} {t : Nat → ToolBeh} {tk : AgentToolkit}
    (hp : parseToolCall (jsTrim (stripThink txt)) = some tc)
    (hbeh : ∀ n, t n ≠ ToolBeh.abortFires)
    (st0 : LoopSt) (hab : st0.aborted = false) (hfa : st0.finalAnswer = "")
    (hsteps : st0.steps = []) (hg0 : st0.nGen = 0) (ht0 : st0.nTool = 0) :
    ∃ st8, runFrom (fun _ => GenOut.ok txt) t (fun _ => false) tk 0 8 st0 = (st8, none) ∧
      st8.aborted = false ∧ st8.finalAnswer = "" ∧
      st8.currentIteration = 8 ∧ st8.nGen = 8 ∧ st8.nTool ≤ 2 ∧
      errCount st8 = 6 ∧ obsCount st8 = 2 := by
  have her0 : errCount st0 = 0 := by simp [errCount, hsteps]
  have hob0 : obsCount st0 = 0 := by simp [obsCount, hsteps]
  have hsig0 : actionSigsOf st0 = List.replicate 0 (stepSignature (probeStep tc)) := by
    simp [actionSigsOf, hsteps]
  have hdet0 : detectLoop (st0.steps ++ [probeStep tc]) = false :=
    (detectLoop_probe hsig0).trans rfl
  obtain ⟨st1, e1, a1, f1, g1, i1, t1, s1, r1, o1⟩ := @iterA txt tc t tk hp hbeh st0 0 hab hfa hdet0
  have hsig1 : actionSigsOf st1 = List.replicate 1 (stepSignature (probeStep tc)) := by
    rw [s1, hsig0]
    rfl
  have hdet1 : detectLoop (st1.steps ++ [probeStep tc]) = false :=
    (detectLoop_probe hsig1).trans rfl
  obtain ⟨st2, e2, a2, f2, g2, i2, t2, s2, r2, o2⟩ := @iterA txt tc t tk hp hbeh st1 1 a1 f1 hdet1
  have hsig2 : actionSigsOf st2 = List.replicate 2 (stepSignature (probeStep tc)) := by
    rw [s2, hsig1]
    rfl
  obtain ⟨st8, e8, a8, f8, g8, i8, t8, s8, r8, o8⟩ := chainB hp 5 2 st2 a2 f2 hsig2
  refine ⟨st8, ?_, a8, f8, ?_, ?_, ?_, ?_, ?_⟩
  · rw [show (8 : Nat) = 7 + 1 from rfl, runFrom_next 7 e1]
    rw [show (7 : Nat) = 6 + 1 from rfl, runFrom_next 6 e2]
    exact e8
  · omega
  · omega
  · omega
  · omega
  · omega

/-- The max-iterations fallback appends only a `final` step: the
answer is non-empty, status becomes `done`, and the iteration,
generation, race and `error`/`observation` counts are unchanged. -/
theorem finishLoop_fallback_facts (st : LoopSt) (ha : st.aborted = false)
    (hf : st.finalAnswer = "") :
    (finishLoop st).2 ≠ "" ∧ (finishLoop st).1.status = AgentStatus.done ∧
    (finishLoop st).1.currentIteration = st.currentIteration ∧
    (finishLoop st).1.nGen = st.nGen ∧ (finishLoop st).1.nTool = st.nTool ∧
    errCount (finishLoop st).1 = errCount st ∧
    obsCount (finishLoop st).1 = obsCount st := by
  unfold finishLoop
  simp only []
  rw [finishAbort_of_not_aborted st ha]
  unfold finishFallback
  rw [if_pos ⟨hf, ha⟩]
  simp only []
  unfold addStep
  rw [if_neg (by simp [ha])]
  simp only []
  refine ⟨?_, ?_, ?_, ?_, ?_, ?_, ?_⟩
  · exact fallbackAnswer_ne st
  · trivial
  · trivial
  · trivial
  · trivial
  · simp [errCount, List.filter_append, stepType_beq]
  · simp [obsCount, List.filter_append, stepType_beq]

set_option maxHeartbeats 1000000 in
/-- C2 (amended).  With a generator that emits the identical tool call
on every iteration (and tool settlements that never abort the run),
`runLoop` does not stop at iteration 4: repeat-blocked turns keep
consuming iterations, so the loop runs to the `MAX_ITERATIONS` cap of
8 and performs 8 generations; the repeat detector trips on each of the
six iterations from the third onward (six `error` steps), the tool is
raced at most twice (two `observation` steps), and the terminal
fallback still returns a non-empty answer with status `done`. -/
theorem c2_amended {txt : String} {tc : ParsedToolCall} {t : Nat → ToolBeh}
    (hp : parseToolCall (jsTrim (stripThink txt)) = some tc)
    (hbeh : ∀ n, t n ≠ ToolBeh.abortFires)
    (query systemPrompt : String) (tk : AgentToolkit) :
    ∃ st ans,
      runLoop query tk (fun _ => GenOut.ok txt) t (fun _ => false) systemPrompt = (st, ans) ∧
      st.currentIteration = MAX_ITERATIONS ∧
      st.nGen = 8 ∧
      st.nTool ≤ 2 ∧
      errCount st = 6 ∧
      obsCount st = 2 ∧
      ans ≠ "" ∧
      st.status = AgentStatus.done := by
  unfold runLoop
  simp only []
  obtain ⟨st8, hrun, hb, hf, hcur, hgen, htool, herr, hobs⟩ :=
    runchain hp hbeh
      { steps := []
        status := .thinking
        currentIteration := 0
        msgs := [{ role := "system",
                   content := buildAgentPrompt systemPrompt (availableTools tk) },
                 { role := "user", content := query }]
        stepId := 0
        finalAnswer := ""
        aborted := false
        nAwait := 0
        nGen := 0
        nTool := 0 }
      rfl rfl rfl rfl rfl
  rw [show MAX_ITERATIONS = 8 from rfl]
  rw [hrun]
  obtain ⟨w1, w2, w3, w4, w5, w6, w7⟩ := finishLoop_fallback_facts st8 hb hf
  refine ⟨(finishLoop st8).1, (finishLoop st8).2, rfl, ?_, ?_, ?_, ?_, ?_, w1, w2⟩
  · rw [w3, hcur]
  · rw [w4, hgen]
  · rw [w5]
    exact htool
  · rw [w6, herr]
  · rw [w7, hobs]

set_option maxRecDepth 8000 in
/-- Witness for the amended C2 at concrete inputs: a generator that
always emits `identCallText`, a tool that always settles, the full
toolkit. -/
theorem c2_witness :
    ∃ st ans,
      runLoop "What?" tkFull (fun _ => GenOut.ok identCallText) identToolBeh
        (fun _ => false) "" = (st, ans) ∧
      st.currentIteration = MAX_ITERATIONS ∧
      st.nGen = 8 ∧
      st.nTool ≤ 2 ∧
      errCount st = 6 ∧
      obsCount st = 2 ∧
      ans ≠ "" ∧
      st.status = AgentStatus.done :=
  @c2_amended identCallText
    { thought := "I will search.", tool := "webSearch",
      args := Json.obj [("query", Json.str "x")] }
    identToolBeh rfl (fun _ h => ToolBeh.noConfusion h) "What?" "" tkFull

end UA
